import Mathlib

/-!
# Matrix block builders and regression skeleton of the fdaPDE lambda-optimization core

Shallow embedding of

* `src/Lambda_Optimization/Src/Auxiliary_Optimizer.cpp` (the `T` / `E` block builders),
* `src/Skeletons/Headers/Regression_Skeleton.h` (carrier / method / strategy selection),
* `src/regressionData_imp.h` (constructor and `setObservations` of `RegressionData`).

Conventions of the embedding.

* `Real` is read as an exact rational (`ℚ`): the properties below are algebraic
  identities, stated in exact arithmetic.
* A dense or sparse Eigen matrix with `r` rows and `c` columns is a
  `Matrix (Fin r) (Fin c) ℚ`.  The sizes are carried by the type; the *indices*
  handed to `coeff`, `coeffRef` and `operator()` are raw unsigned integers
  (`Nat`), exactly as in the source, and every such access is checked: an index
  outside the matrix (undefined behaviour in the source) makes the builder
  return `none`.
* `std::vector<UInt>` is `List Nat`; `v[i]` is the checked `v[i]?`.
* `for (UInt i = 0; i < s; i++)` is a monadic left fold over `List.range s`.
  Loop counters never come near `2^32`, so they are plain naturals.
-/

namespace FdaPDE

/-- Dense matrix of reals (`MatrixXr`), with its sizes in the type. -/
abbrev MatrixXr (r c : Nat) := Matrix (Fin r) (Fin c) ℚ

/-- Sparse matrix of reals (`SpMat`); only its entries matter here. -/
abbrev SpMat (r c : Nat) := Matrix (Fin r) (Fin c) ℚ

/-- Dense vector of reals (`VectorXr`). -/
abbrev VectorXr (n : Nat) := Fin n → ℚ

/-- Read access `M.coeff(i, j)` with raw indices; `none` outside the matrix. -/
def coeff {r c : Nat} (M : MatrixXr r c) (i j : Nat) : Option ℚ :=
  if h : i < r ∧ j < c then some (M ⟨i, h.1⟩ ⟨j, h.2⟩) else none

/-- The compound assignment `M.coeffRef(i, j) += v` (also `M(i, j) += v`);
`none` outside the matrix. -/
def coeffRef_add {r c : Nat} (M : MatrixXr r c) (i j : Nat) (v : ℚ) : Option (MatrixXr r c) :=
  if i < r ∧ j < c then
    some (Matrix.of fun a b => if a.val = i ∧ b.val = j then M a b + v else M a b)
  else none

/-- The plain assignment `M(i, j) = v`; `none` outside the matrix. -/
def coeffRef_assign {r c : Nat} (M : MatrixXr r c) (i j : Nat) (v : ℚ) : Option (MatrixXr r c) :=
  if i < r ∧ j < c then
    some (Matrix.of fun a b => if a.val = i ∧ b.val = j then v else M a b)
  else none

namespace AuxiliaryOptimizer

/-- The literal `Real pen=10e20;` used by the four boundary-handling builders. -/
def pen : ℚ := 10e20

/-- Embedding of `set_T_nW_a`: `T += psi_t * A.asDiagonal() * psi`. -/
def set_T_nW_a {n s : Nat} (T : MatrixXr n n) (Ap : VectorXr s) (psip : SpMat s n)
    (psi_tp : SpMat n s) : MatrixXr n n :=
  T + psi_tp * Matrix.diagonal Ap * psip

/-- Embedding of `set_T_W_a`: `T += psi_t * A.asDiagonal() * Q * psi`. -/
def set_T_W_a {n s : Nat} (T : MatrixXr n n) (Ap : VectorXr s) (psip : SpMat s n)
    (psi_tp : SpMat n s) (Qp : MatrixXr s s) : MatrixXr n n :=
  T + psi_tp * Matrix.diagonal Ap * Qp * psip

/-- Embedding of `set_T_ln_nW_ptw`: the observation loop adds `1` to
`T(k[i], k[i])` for `i < s`; then, if the boundary list is not empty, each
boundary index `id` gets `pen - 1` added on the diagonal when `std::find`
locates `id` in `k`, and `pen` otherwise. -/
def set_T_ln_nW_ptw {r c : Nat} (T : MatrixXr r c) (kp : List Nat) (s : Nat)
    (bc_indicesp : List Nat) : Option (MatrixXr r c) := do
  let T ← (List.range s).foldlM (fun T i => do
    let ki ← kp[i]?
    coeffRef_add T ki ki 1) T
  let nbc_indices := bc_indicesp.length
  if nbc_indices ≠ 0 then
    (List.range nbc_indices).foldlM (fun T i => do
      let id ← bc_indicesp[i]?
      if id ∈ kp then coeffRef_add T id id (pen - 1)
      else coeffRef_add T id id pen) T
  else
    pure T

/-- Embedding of `set_T_ln_W_ptw`: the double loop adds `Q(i, j)` to
`T(k[i], k[j])` for `i, j < s`; then each boundary index `id` gets
`pen - Q(id, id)` added on the diagonal when `id` occurs in `k`, and `pen`
otherwise. -/
def set_T_ln_W_ptw {r c qr qc : Nat} (T : MatrixXr r c) (kp : List Nat) (Qp : MatrixXr qr qc)
    (s : Nat) (bc_indicesp : List Nat) : Option (MatrixXr r c) := do
  let T ← (List.range s).foldlM (fun T i =>
    (List.range s).foldlM (fun T j => do
      let ki ← kp[i]?
      let kj ← kp[j]?
      let q ← coeff Qp i j
      coeffRef_add T ki kj q) T) T
  let nbc_indices := bc_indicesp.length
  if nbc_indices ≠ 0 then
    (List.range nbc_indices).foldlM (fun T i => do
      let id ← bc_indicesp[i]?
      if id ∈ kp then do
        let q ← coeff Qp id id
        coeffRef_add T id id (pen - q)
      else coeffRef_add T id id pen) T
  else
    pure T

/-- The boundary loop shared verbatim by `set_T_lnn_nW_ptw` and
`set_T_lnn_W_ptw`: `temp(id, id) = pen` for every boundary index. -/
def overwrite_boundary {r c : Nat} (temp : MatrixXr r c) (bc_indicesp : List Nat) :
    Option (MatrixXr r c) :=
  let nbc_indices := bc_indicesp.length
  if nbc_indices ≠ 0 then
    (List.range nbc_indices).foldlM (fun temp i => do
      let id ← bc_indicesp[i]?
      coeffRef_assign temp id id pen) temp
  else
    pure temp

/-- Embedding of `set_T_lnn_nW_ptw`: `temp = psi_t * psi`, boundary diagonals of
`temp` are assigned `pen`, then `T += temp`. -/
def set_T_lnn_nW_ptw {n s : Nat} (T : MatrixXr n n) (psip : SpMat s n) (psi_tp : SpMat n s)
    (bc_indicesp : List Nat) : Option (MatrixXr n n) := do
  let temp : MatrixXr n n := psi_tp * psip
  let temp ← overwrite_boundary temp bc_indicesp
  pure (T + temp)

/-- Embedding of `set_T_lnn_W_ptw`: `temp = psi_t * Q * psi`, boundary diagonals
of `temp` are assigned `pen`, then `T += temp`. -/
def set_T_lnn_W_ptw {n s : Nat} (T : MatrixXr n n) (psip : SpMat s n) (psi_tp : SpMat n s)
    (Qp : MatrixXr s s) (bc_indicesp : List Nat) : Option (MatrixXr n n) := do
  let temp : MatrixXr n n := psi_tp * Qp * psip
  let temp ← overwrite_boundary temp bc_indicesp
  pure (T + temp)

/-- Embedding of `set_E_ln_W_ptw`: `E = MatrixXr::Zero(nr, s)`, then the double
loop adds `Q(i, j)` to `E(k[i], j)` for `i, j < s`.  The previous content (and
size) of `E` is an argument, as in the source. -/
def set_E_ln_W_ptw {er ec qr qc : Nat} (_E : MatrixXr er ec) (kp : List Nat)
    (Qp : MatrixXr qr qc) (nr s : Nat) : Option (MatrixXr nr s) := do
  let E : MatrixXr nr s := 0
  (List.range s).foldlM (fun E i =>
    (List.range s).foldlM (fun E j => do
      let ki ← kp[i]?
      let q ← coeff Qp i j
      coeffRef_add E ki j q) E) E

end AuxiliaryOptimizer

/-- The indicator matrix of the map `k`, in the words of the specification:
`Ψ[i,j] = 1` if `j = k[i]` and `0` otherwise (`s` rows, `n` columns). -/
def indicator (s n : Nat) (k : List Nat) : MatrixXr s n :=
  Matrix.of fun i j => if k[i.val]? = some j.val then 1 else 0

/-! ### Auxiliary definitions used to state the closed forms of the loops -/

/-- The matrix whose only non-zero entry is `v` at position `(i, j)`. -/
def single (r c : Nat) (i j : Nat) (v : ℚ) : MatrixXr r c :=
  Matrix.of fun a b => if a.val = i ∧ b.val = j then v else 0

/-- The node of observation `i`, that is `k[i]` (`0` past the end of `k`). -/
def nodeOf (k : List Nat) (i : Nat) : Nat := k.getD i 0

/-- The entry `Q(i, j)` read with raw indices (`0` outside the matrix). -/
def entryOf {r c : Nat} (Q : MatrixXr r c) (i j : Nat) : ℚ := (coeff Q i j).getD 0

/-- Total of the increments made by the observation loop of `set_T_ln_nW_ptw`. -/
def obs_nW (n s : Nat) (k : List Nat) : MatrixXr n n :=
  ((List.range s).map fun i => single n n (nodeOf k i) (nodeOf k i) 1).sum

/-- Total of the increments made by the double loop of `set_T_ln_W_ptw`. -/
def obs_W {qr qc : Nat} (n s : Nat) (k : List Nat) (Q : MatrixXr qr qc) : MatrixXr n n :=
  ((List.range s).map fun i =>
    ((List.range s).map fun j => single n n (nodeOf k i) (nodeOf k j) (entryOf Q i j)).sum).sum

/-- Total of the increments made by the double loop of `set_E_ln_W_ptw`. -/
def obs_E {qr qc : Nat} (nr s : Nat) (k : List Nat) (Q : MatrixXr qr qc) : MatrixXr nr s :=
  ((List.range s).map fun i =>
    ((List.range s).map fun j => single nr s (nodeOf k i) j (entryOf Q i j)).sum).sum

/-- Total of the diagonal increments `w id` made by a boundary loop. -/
def bc_sum (n : Nat) (bc : List Nat) (w : Nat → ℚ) : MatrixXr n n :=
  (bc.map fun id => single n n id id (w id)).sum

/-- The increment the boundary loop of `set_T_ln_nW_ptw` puts on `T(id, id)`. -/
def bc_inc_nW (k : List Nat) (id : Nat) : ℚ :=
  if id ∈ k then AuxiliaryOptimizer.pen - 1 else AuxiliaryOptimizer.pen

/-- The increment the boundary loop of `set_T_ln_W_ptw` puts on `T(id, id)`. -/
def bc_inc_W {qr qc : Nat} (k : List Nat) (Q : MatrixXr qr qc) (id : Nat) : ℚ :=
  if id ∈ k then AuxiliaryOptimizer.pen - entryOf Q id id else AuxiliaryOptimizer.pen

/-- The matrix `temp` with the diagonal entries listed in `bc` replaced by `pen`. -/
def with_boundary {n : Nat} (temp : MatrixXr n n) (bc : List Nat) : MatrixXr n n :=
  Matrix.of fun a b => if a = b ∧ a.val ∈ bc then AuxiliaryOptimizer.pen else temp a b

/-! ## The regression skeleton (`Regression_Skeleton.h`)

The three function templates are embedded as functions that return the list of
calls they make to their collaborators, in program order, together with the
value they return.  The value is `none` when control reaches the end of a
value-returning function without executing a `return` statement (undefined
behaviour in the source).  Wall-clock timing is not modelled. -/

/-- The four carrier types that `regression_skeleton` instantiates:
`Carrier<InputHandler,Forced,Areal>`, `Carrier<InputHandler,Forced>`,
`Carrier<InputHandler,Areal>` and `Carrier<InputHandler>`. -/
inductive CarrierType
  | forced_areal
  | forced
  | areal
  | plain
  deriving DecidableEq, Repr

/-- The two evaluator types that `optimizer_method_selection` instantiates:
`GCV_Exact<CarrierType, 1>` and `GCV_Stochastic<CarrierType, 1>`. -/
inductive EvaluationType
  | GCV_Exact
  | GCV_Stochastic
  deriving DecidableEq, Repr

/-- Modelled from the spec: the optimization configuration (`OptimizationData`,
declared in `Optimization_Data.h`, not among the sources), with the five getters
the skeleton calls: loss-function selector, DOF-evaluation mode, search
criterion, initial lambda and lambda grid. -/
structure OptimizationData where
  /-- Value of `get_loss_function()`. -/
  loss_function : String
  /-- Value of `get_DOF_evaluation()`. -/
  DOF_evaluation : String
  /-- Value of `get_criterion()`. -/
  criterion : String
  /-- Value of `get_initial_lambda_S()`. -/
  initial_lambda_S : ℚ
  /-- Value of `get_lambda_S()`. -/
  lambda_S : List ℚ

/-- Modelled from the spec: a carrier (`Carrier.h`, not among the sources) binds
a model to the optimization configuration and exposes it through
`get_opt_data()`; its type records which of the four variants it is. -/
structure Carrier where
  /-- The instantiated carrier type. -/
  variant : CarrierType
  /-- Value of `get_opt_data()`. -/
  opt_data : OptimizationData

/-- Calls made by the skeleton to its collaborators. -/
inductive Event
  /-- The call `regression.preapply(mesh)`. -/
  | preapply
  /-- A call `Rprintf(msg)`. -/
  | Rprintf (msg : String)
  /-- A call `CarrierBuilder<InputHandler>::build_..._carrier(...)`. -/
  | build_carrier (c : CarrierType)
  /-- Construction `GCV_Exact<...> optim(carrier)` or `GCV_Stochastic<...> optim(carrier)`. -/
  | construct_evaluator (e : EvaluationType) (c : CarrierType)
  /-- Construction of `Eval_GCV` on the grid and the call `eval.Get_optimization_vectorial()`. -/
  | Get_optimization_vectorial (grid : List ℚ)
  /-- The call `Opt_method_factory<...>::create_Opt_method(criterion, Fun)`. -/
  | create_Opt_method (criterion : String)
  /-- The call `optim_p->compute(lambda, tolerance, max_iter, ch, GCV_v_, lambda_v_)`. -/
  | compute (lambda tolerance : ℚ) (max_iter : Nat)
  /-- The call `carrier.apply(lambda)`. -/
  | carrier_apply (c : CarrierType) (lambda : ℚ)
  /-- The call `carrier.get_model()->getBeta()`. -/
  | getBeta
  /-- The call `optim_p->F.get_output(...)`. -/
  | get_output
  /-- The call `Solution_Builders::build_solution_plain_regression(...)`. -/
  | build_solution
  deriving DecidableEq

/-- The collaborators of the skeleton that are declared outside the sources
(carriers, evaluators, optimization methods, solution builders), taken as
parameters: what each call returns.  `Sol` stands for the solution vector,
`Out` for `output_Data`, `Res` for the `SEXP` handed back to R. -/
structure Collaborators (Sol Out Res : Type) where
  /-- Value of `carrier.apply(lambda)`. -/
  apply : CarrierType → ℚ → Sol
  /-- Value of `eval.Get_optimization_vectorial()` on a grid. -/
  Get_optimization_vectorial : EvaluationType → CarrierType → List ℚ → Out
  /-- The field `output.lambda_sol`. -/
  lambda_sol : Out → ℚ
  /-- The record after `output.time_partial = ...` and `output.betas = ...`. -/
  set_time_betas : Out → Out
  /-- Value of `optim_p->compute(lambda, tolerance, max_iter, ...)` for the
  optimization method created from a criterion. -/
  compute : String → EvaluationType → CarrierType → ℚ → ℚ → Nat → ℚ × Nat
  /-- Value of `optim_p->F.get_output(lambda_couple, ...)`. -/
  get_output : EvaluationType → CarrierType → ℚ × Nat → Out
  /-- Value of `Solution_Builders::build_solution_plain_regression(...)`. -/
  build_solution : Sol → Out → Res

/-- Embedding of `optimizer_strategy_selection`: the batch branch evaluates the
grid and applies the carrier at `output.lambda_sol`; the other branch creates
the optimization method, replaces a non-positive initial lambda by `-1`, calls
`compute(lambda, 5e-2, 40, ...)` and applies the carrier at the lambda found. -/
def optimizer_strategy_selection {Sol Out Res : Type} (env : Collaborators Sol Out Res)
    (optim : EvaluationType) (carrier : Carrier) : List Event × Option (Sol × Out) :=
  let optr := carrier.opt_data
  if optr.criterion = "batch" then
    let output := env.Get_optimization_vectorial optim carrier.variant optr.lambda_S
    let solution := env.apply carrier.variant (env.lambda_sol output)
    ([Event.Rprintf "WARNING: start taking time\n",
      Event.Get_optimization_vectorial optr.lambda_S,
      Event.Rprintf "WARNING: partial time after the optimization method\n",
      Event.carrier_apply carrier.variant (env.lambda_sol output),
      Event.getBeta],
     some (solution, env.set_time_betas output))
  else
    let lambda := optr.initial_lambda_S
    let lambda := if lambda ≤ 0 then -1 else lambda
    let lambda_couple := env.compute optr.criterion optim carrier.variant lambda 5e-2 40
    let solution := env.apply carrier.variant lambda_couple.1
    let output := env.get_output optim carrier.variant lambda_couple
    ([Event.create_Opt_method optr.criterion,
      Event.Rprintf "WARNING: start taking time\n",
      Event.compute lambda 5e-2 40,
      Event.Rprintf "WARNING: partial time after the optimization method\n",
      Event.carrier_apply carrier.variant lambda_couple.1,
      Event.get_output],
     some (solution, output))

/-- Embedding of `optimizer_method_selection`: the first two branches construct
the evaluator and return what `optimizer_strategy_selection` returns; the two
branches holding only the comment `//ADD`, and the missing final `else`, reach
the end of the function without a `return` statement. -/
def optimizer_method_selection {Sol Out Res : Type} (env : Collaborators Sol Out Res)
    (carrier : Carrier) : List Event × Option (Sol × Out) :=
  let optr := carrier.opt_data
  if optr.loss_function = "GCV" ∧ optr.DOF_evaluation = "exact" then
    let r := optimizer_strategy_selection env EvaluationType.GCV_Exact carrier
    ([Event.Rprintf "GCV exact\n",
      Event.construct_evaluator EvaluationType.GCV_Exact carrier.variant] ++ r.1, r.2)
  else if optr.loss_function = "GCV" ∧ optr.DOF_evaluation = "stochastic" then
    let r := optimizer_strategy_selection env EvaluationType.GCV_Stochastic carrier
    ([Event.Rprintf "GCV stochastic\n",
      Event.construct_evaluator EvaluationType.GCV_Stochastic carrier.variant] ++ r.1, r.2)
  else if optr.loss_function = "GCV" ∧ optr.DOF_evaluation = "not_required" then
    ([], none)
  else if optr.loss_function = "unused" ∧ optr.DOF_evaluation = "not_required" then
    ([], none)
  else
    ([], none)

/-- Embedding of `regression_skeleton`: after `preapply`, the carrier is built
according to `regression.isSV()` and `regressionData.getNumberOfRegions() > 0`,
`optimizer_method_selection` is called on it, and
`build_solution_plain_regression` is called on `solution_bricks` in every case;
the value returned is that of the call when `optimizer_method_selection`
returned a pair, and is not defined when it did not. -/
def regression_skeleton {Sol Out Res : Type} (env : Collaborators Sol Out Res) (isSV : Bool)
    (getNumberOfRegions : Nat) (optimizationData : OptimizationData) :
    List Event × Option Res :=
  let r : List Event × Option (Sol × Out) :=
    if isSV then
      if getNumberOfRegions > 0 then
        let carrier : Carrier := ⟨CarrierType.forced_areal, optimizationData⟩
        let m := optimizer_method_selection env carrier
        ([Event.Rprintf "Areal-forced\n", Event.build_carrier carrier.variant] ++ m.1, m.2)
      else
        let carrier : Carrier := ⟨CarrierType.forced, optimizationData⟩
        let m := optimizer_method_selection env carrier
        ([Event.Rprintf "Pointwise-forced\n", Event.build_carrier carrier.variant] ++ m.1, m.2)
    else
      if getNumberOfRegions > 0 then
        let carrier : Carrier := ⟨CarrierType.areal, optimizationData⟩
        let m := optimizer_method_selection env carrier
        ([Event.Rprintf "Areal\n", Event.build_carrier carrier.variant] ++ m.1, m.2)
      else
        let carrier : Carrier := ⟨CarrierType.plain, optimizationData⟩
        let m := optimizer_method_selection env carrier
        ([Event.Rprintf "Pointwise\n", Event.build_carrier carrier.variant] ++ m.1, m.2)
  (Event.preapply :: r.1 ++ [Event.build_solution],
    r.2.map fun solution_bricks => env.build_solution solution_bricks.1 solution_bricks.2)

/-- The carriers constructed along a run, in order. -/
def carriers_built : List Event → List CarrierType
  | [] => []
  | Event.build_carrier c :: es => c :: carriers_built es
  | _ :: es => carriers_built es

/-- The evaluators constructed along a run, in order. -/
def evaluators_built : List Event → List EvaluationType
  | [] => []
  | Event.construct_evaluator e _ :: es => e :: evaluators_built es
  | _ :: es => evaluators_built es

/-- The values of lambda at which `carrier.apply` is called along a run, in order. -/
def apply_calls : List Event → List ℚ
  | [] => []
  | Event.carrier_apply _ l :: es => l :: apply_calls es
  | _ :: es => apply_calls es

/-- The carrier variant for the two flags, in the words of the specification:
(true, true) gives Forced+Areal, (true, false) Forced, (false, true) Areal,
(false, false) the plain carrier. -/
def carrier_of_flags : Bool → Bool → CarrierType
  | true, true => CarrierType.forced_areal
  | true, false => CarrierType.forced
  | false, true => CarrierType.areal
  | false, false => CarrierType.plain

/-- Collaborators with rational stand-ins, to run the skeleton on concrete
input: `apply` returns the lambda it is given, `compute` returns its starting
value after one iteration, the batch evaluation returns the head of the grid. -/
def sample_collaborators : Collaborators ℚ ℚ ℚ where
  apply := fun _ l => l
  Get_optimization_vectorial := fun _ _ grid => grid.headD 0
  lambda_sol := fun out => out
  set_time_betas := fun out => out
  compute := fun _ _ _ l _ _ => (l, 1)
  get_output := fun _ _ lc => lc.1
  build_solution := fun sol _ => sol

/-- The calls of `compute` made along a run, in order, each with its starting
value, step tolerance and iteration bound. -/
def compute_calls : List Event → List (ℚ × ℚ × Nat)
  | [] => []
  | Event.compute l t m :: es => (l, t, m) :: compute_calls es
  | _ :: es => compute_calls es

/-! ## Observations of the regression data (`regressionData_imp.h`)

An entry of an R numeric vector is a real value or the missing value `NA`;
`ISNA` tells them apart.  A `VectorXr` filled from such a vector can hold `NA`
entries too, so both are lists of `RReal`. -/

/-- An entry of an R numeric vector: `none` is `NA`. -/
abbrev RReal := Option ℚ

/-- The test `ISNA(x)`. -/
def ISNA (x : RReal) : Bool := x.isNone

/-- The members of `RegressionData` that the constructor and `setObservations`
read or write.  `Point` is declared outside the sources; only the number of
locations is used. -/
structure RegressionData (Point : Type) where
  /-- The member `locations_`. -/
  locations_ : List Point
  /-- The member `observations_`. -/
  observations_ : List RReal
  /-- The member `observations_indices_`. -/
  observations_indices_ : List Nat
  /-- The member `nRegions_`. -/
  nRegions_ : Nat
  /-- The member `locations_by_nodes_`. -/
  locations_by_nodes_ : Bool

/-- The assignment `v[i] = x` on a vector; `none` past its end. -/
def assign_at (v : List RReal) (i : Nat) (x : RReal) : Option (List RReal) :=
  if i < v.length then some (v.set i x) else none

/-- The call `v.resize(n)`: a vector of `n` entries whose content is whatever the
allocation holds, here `uninit`. -/
def resize (n : Nat) (uninit : RReal) : List RReal := List.replicate n uninit

/-- The call `v.conservativeResize(n, Eigen::NoChange)`: the first `n` entries
are kept, entries past the old end hold `uninit`. -/
def conservativeResize (v : List RReal) (n : Nat) (uninit : RReal) : List RReal :=
  v.take n ++ List.replicate (n - v.length) uninit

/-- The variables updated by the first loop of `setObservations`. -/
structure ObservationLoop where
  /-- The member `observations_`. -/
  observations_ : List RReal
  /-- The local `count`. -/
  count : Nat
  /-- The member `observations_indices_`. -/
  observations_indices_ : List Nat

/-- Embedding of the non-R constructor of `RegressionData` (with
`nRegions_ = incidenceMatrix_.rows()`): when there are no locations and no
regions, `observations_indices_` is resized to the number of observations and
filled by `std::iota` from `0`; otherwise it stays empty. -/
def RegressionData.constructor {Point : Type} (locations : List Point)
    (observations : List RReal) (incidenceMatrix_rows : Nat) : RegressionData Point :=
  let nRegions_ := incidenceMatrix_rows
  if locations.length = 0 ∧ nRegions_ = 0 then
    { locations_ := locations, observations_ := observations, nRegions_ := nRegions_,
      locations_by_nodes_ := true,
      observations_indices_ := List.range observations.length }
  else
    { locations_ := locations, observations_ := observations, nRegions_ := nRegions_,
      locations_by_nodes_ := false,
      observations_indices_ := [] }

/-- Embedding of `RegressionData::setObservations`: `observations_` is resized
to the length of the input; with no locations and no regions the loop copies
each entry that is not `NA` to position `count`, increments `count` and appends
the position `i` to `observations_indices_`, and `observations_` is then cut to
`count` entries; otherwise every entry is copied in place. -/
def RegressionData.setObservations {Point : Type} (uninit : RReal) (d : RegressionData Point)
    (Robservations : List RReal) : Option (RegressionData Point) := do
  let n_obs_ := Robservations.length
  let observations_ := resize n_obs_ uninit
  let count := 0
  if d.locations_.length = 0 ∧ d.nRegions_ = 0 then
    let st ← (List.range n_obs_).foldlM (fun (st : ObservationLoop) i => do
      let x ← Robservations[i]?
      if !ISNA x then
        let observations_ ← assign_at st.observations_ st.count x
        pure { observations_ := observations_, count := st.count + 1,
               observations_indices_ := st.observations_indices_ ++ [i] }
      else
        pure st) ⟨observations_, count, d.observations_indices_⟩
    pure { d with
      locations_by_nodes_ := true
      observations_ := conservativeResize st.observations_ st.count uninit
      observations_indices_ := st.observations_indices_ }
  else
    let observations_ ← (List.range n_obs_).foldlM (fun observations_ i => do
      let x ← Robservations[i]?
      assign_at observations_ i x) observations_
    pure { d with locations_by_nodes_ := false, observations_ := observations_ }

/-- The positions of the entries that are not `NA`, in the words of the claim:
the increasing list of the original positions of the non-missing values. -/
def non_missing_positions (xs : List RReal) : List Nat :=
  (List.range xs.length).filter fun i => (xs[i]?).any fun x => !ISNA x

/-- The entries that are not `NA`, in input order. -/
def non_missing_values (xs : List RReal) : List RReal :=
  xs.filter fun x => !ISNA x

end FdaPDE

/-! ## Theorems -/

namespace FdaPDE
open Matrix AuxiliaryOptimizer

/-! ### Checked accesses inside the matrix -/

theorem coeffRef_add_eq {r c : Nat} (M : MatrixXr r c) (i j : Nat) (v : ℚ)
    (hi : i < r) (hj : j < c) : coeffRef_add M i j v = some (M + single r c i j v) := by
  unfold coeffRef_add
  rw [if_pos ⟨hi, hj⟩]
  congr 1
  ext a b
  simp only [single, Matrix.of_apply, Matrix.add_apply]
  split <;> simp

theorem coeff_eq {r c : Nat} (M : MatrixXr r c) (i j : Nat) (hi : i < r) (hj : j < c) :
    coeff M i j = some (entryOf M i j) := by
  unfold entryOf coeff
  rw [dif_pos ⟨hi, hj⟩]
  rfl

theorem entryOf_fin {r c : Nat} (M : MatrixXr r c) (i : Fin r) (j : Fin c) :
    entryOf M i.val j.val = M i j := by
  unfold entryOf coeff
  rw [dif_pos ⟨i.isLt, j.isLt⟩]
  rfl

theorem getElem?_of_lt_length (k : List Nat) (i : Nat) (h : i < k.length) :
    k[i]? = some (nodeOf k i) := by
  simp [nodeOf, List.getD, List.getElem?_eq_getElem h]

theorem nodeOf_mem (k : List Nat) (i : Nat) (h : i < k.length) : nodeOf k i ∈ k := by
  unfold nodeOf
  rw [List.getD_eq_getElem _ _ h]
  exact List.getElem_mem h

/-! ### Loops as folds -/

theorem foldlM_congr_mem {α β : Type} (l : List α) (f g : β → α → Option β)
    (h : ∀ x ∈ l, ∀ b, f b x = g b x) (b : β) : l.foldlM f b = l.foldlM g b := by
  induction l generalizing b with
  | nil => rfl
  | cons x xs ih =>
    rw [List.foldlM_cons, List.foldlM_cons, h x (List.mem_cons_self x xs) b]
    cases g b x with
    | none => rfl
    | some b2 => exact ih (fun y hy => h y (List.mem_cons_of_mem x hy)) b2

/-- An index loop over a vector is a fold over its elements. -/
theorem foldlM_range_index {β : Type} (l : List Nat) (F : β → Nat → Option β) (b : β) :
    (List.range l.length).foldlM (fun T i => do let id ← l[i]?; F T id) b = l.foldlM F b := by
  induction l using List.reverseRecOn generalizing b with
  | nil => rfl
  | append_singleton l x ih =>
    rw [List.length_append, List.length_singleton, List.range_succ, List.foldlM_append,
      List.foldlM_append]
    have h1 : (List.range l.length).foldlM
        (fun T i => do let id ← (l ++ [x])[i]?; F T id) b = l.foldlM F b := by
      rw [← ih b]
      apply foldlM_congr_mem
      intro i hi T
      rw [List.getElem?_append_left (List.mem_range.mp hi)]
    rw [h1]
    cases l.foldlM F b with
    | none => rfl
    | some b2 =>
      simp only [Option.some_bind, Option.bind_eq_bind, List.foldlM_cons, List.foldlM_nil]
      rw [List.getElem?_append_right (le_refl _)]
      simp

/-- A loop whose every step adds a matrix adds the total of those matrices. -/
theorem foldlM_add_steps {α : Type} {r c : Nat} (l : List α)
    (f : MatrixXr r c → α → Option (MatrixXr r c)) (D : α → MatrixXr r c)
    (h : ∀ x ∈ l, ∀ T, f T x = some (T + D x)) (T : MatrixXr r c) :
    l.foldlM f T = some (T + (l.map D).sum) := by
  induction l generalizing T with
  | nil => simp
  | cons x xs ih =>
    rw [List.foldlM_cons, h x (List.mem_cons_self x xs) T]
    simp only [Option.some_bind, Option.bind_eq_bind]
    rw [ih (fun y hy => h y (List.mem_cons_of_mem x hy))]
    simp [add_assoc]

theorem list_sum_apply {α : Type} {r c : Nat} (l : List α) (D : α → MatrixXr r c)
    (a : Fin r) (b : Fin c) : (l.map D).sum a b = (l.map fun x => D x a b).sum := by
  induction l with
  | nil => simp
  | cons x xs ih => simp [Matrix.add_apply, ih]

theorem range_sum_eq (s : Nat) (f : Nat → ℚ) :
    ((List.range s).map f).sum = ∑ i in Finset.range s, f i := by
  induction s with
  | zero => simp
  | succ m ih => simp [List.range_succ, Finset.sum_range_succ, ih]

theorem range_sum_fin (s : Nat) (f : Nat → ℚ) :
    ((List.range s).map f).sum = ∑ i : Fin s, f i.val := by
  rw [range_sum_eq, Fin.sum_univ_eq_sum_range]

/-! ### Closed forms of the observation loops -/

theorem obs_loop_nW {n : Nat} (k : List Nat) (s : Nat) (hlen : k.length = s)
    (hlt : ∀ x ∈ k, x < n) (T : MatrixXr n n) :
    (List.range s).foldlM (fun T i => do
      let ki ← k[i]?
      coeffRef_add T ki ki 1) T = some (T + obs_nW n s k) := by
  apply foldlM_add_steps
  intro i hi T
  have hi2 : i < k.length := by rw [hlen]; exact List.mem_range.mp hi
  have hk : nodeOf k i < n := hlt _ (nodeOf_mem k i hi2)
  rw [getElem?_of_lt_length k i hi2]
  simp only [Option.some_bind, Option.bind_eq_bind]
  exact coeffRef_add_eq T _ _ 1 hk hk

theorem obs_loop_W {n : Nat} (k : List Nat) (s : Nat) (Q : MatrixXr s s) (hlen : k.length = s)
    (hlt : ∀ x ∈ k, x < n) (T : MatrixXr n n) :
    (List.range s).foldlM (fun T i =>
      (List.range s).foldlM (fun T j => do
        let ki ← k[i]?
        let kj ← k[j]?
        let q ← coeff Q i j
        coeffRef_add T ki kj q) T) T = some (T + obs_W n s k Q) := by
  apply foldlM_add_steps
  intro i hi T
  apply foldlM_add_steps
  intro j hj T
  have hi1 : i < s := List.mem_range.mp hi
  have hj1 : j < s := List.mem_range.mp hj
  have hi2 : i < k.length := by rw [hlen]; exact hi1
  have hj2 : j < k.length := by rw [hlen]; exact hj1
  rw [getElem?_of_lt_length k i hi2, getElem?_of_lt_length k j hj2, coeff_eq Q i j hi1 hj1]
  simp only [Option.some_bind, Option.bind_eq_bind]
  exact coeffRef_add_eq T _ _ _ (hlt _ (nodeOf_mem k i hi2)) (hlt _ (nodeOf_mem k j hj2))

theorem obs_loop_E {nr : Nat} (k : List Nat) (s : Nat) (Q : MatrixXr s s) (hlen : k.length = s)
    (hlt : ∀ x ∈ k, x < nr) (E : MatrixXr nr s) :
    (List.range s).foldlM (fun E i =>
      (List.range s).foldlM (fun E j => do
        let ki ← k[i]?
        let q ← coeff Q i j
        coeffRef_add E ki j q) E) E = some (E + obs_E nr s k Q) := by
  apply foldlM_add_steps
  intro i hi T
  apply foldlM_add_steps
  intro j hj T
  have hi1 : i < s := List.mem_range.mp hi
  have hj1 : j < s := List.mem_range.mp hj
  have hi2 : i < k.length := by rw [hlen]; exact hi1
  rw [getElem?_of_lt_length k i hi2, coeff_eq Q i j hi1 hj1]
  simp only [Option.some_bind, Option.bind_eq_bind]
  exact coeffRef_add_eq T _ _ _ (hlt _ (nodeOf_mem k i hi2)) hj1

/-! ### The observation totals are the matrix products of the remark -/

theorem indicator_apply (s n : Nat) (k : List Nat) (hlen : k.length = s) (i : Fin s)
    (a : Fin n) : indicator s n k i a = if nodeOf k i.val = a.val then 1 else 0 := by
  have hi2 : i.val < k.length := by rw [hlen]; exact i.isLt
  simp only [indicator, Matrix.of_apply, getElem?_of_lt_length k i hi2, Option.some.injEq]

theorem obs_nW_eq_mul (n s : Nat) (k : List Nat) (hlen : k.length = s) :
    obs_nW n s k = (indicator s n k)ᵀ * indicator s n k := by
  ext a b
  unfold obs_nW
  rw [list_sum_apply, range_sum_fin, Matrix.mul_apply]
  apply Finset.sum_congr rfl
  intro i _
  simp only [single, Matrix.of_apply, Matrix.transpose_apply, indicator_apply s n k hlen]
  generalize nodeOf k i = x
  by_cases h1 : x = a.val <;> by_cases h2 : x = b.val <;> simp [h1, h2, eq_comm]

theorem obs_W_eq_mul (n s : Nat) (k : List Nat) (Q : MatrixXr s s) (hlen : k.length = s) :
    obs_W n s k Q = (indicator s n k)ᵀ * Q * indicator s n k := by
  ext a b
  unfold obs_W
  rw [list_sum_apply, range_sum_fin]
  simp only [Matrix.mul_apply, Finset.sum_mul]
  rw [Finset.sum_comm]
  apply Finset.sum_congr rfl
  intro i _
  rw [list_sum_apply, range_sum_fin]
  apply Finset.sum_congr rfl
  intro j _
  simp only [single, Matrix.of_apply, Matrix.transpose_apply, indicator_apply s n k hlen,
    entryOf_fin]
  generalize nodeOf k i = x
  generalize nodeOf k j = y
  by_cases h1 : x = a.val <;> by_cases h2 : y = b.val <;> simp [h1, h2, eq_comm]

theorem obs_E_eq_mul (nr s : Nat) (k : List Nat) (Q : MatrixXr s s) (hlen : k.length = s) :
    obs_E nr s k Q = (indicator s nr k)ᵀ * Q := by
  ext a b
  unfold obs_E
  rw [list_sum_apply, range_sum_fin, Matrix.mul_apply]
  apply Finset.sum_congr rfl
  intro i _
  rw [list_sum_apply, range_sum_fin]
  simp only [single, Matrix.of_apply, Matrix.transpose_apply, indicator_apply s nr k hlen]
  rw [Finset.sum_eq_single b]
  · rw [entryOf_fin]
    generalize nodeOf k i = x
    by_cases h1 : x = a.val <;> simp [h1, eq_comm]
  · intro j _ hj
    have : ¬ (b.val = j.val) := fun h => hj (Fin.ext h.symm)
    simp [this]
  · simp


/-! ### Closed forms of the boundary loops -/

theorem bc_loop_nW {n : Nat} (k bc : List Nat) (hbc : ∀ id ∈ bc, id < n) (T : MatrixXr n n) :
    (if bc.length ≠ 0 then
      (List.range bc.length).foldlM (fun T i => do
        let id ← bc[i]?
        if id ∈ k then coeffRef_add T id id (pen - 1)
        else coeffRef_add T id id pen) T
    else pure T) = some (T + bc_sum n bc (bc_inc_nW k)) := by
  split
  · rw [foldlM_range_index bc
      (fun T id => if id ∈ k then coeffRef_add T id id (pen - 1) else coeffRef_add T id id pen)]
    apply foldlM_add_steps
    intro id hid T
    unfold bc_inc_nW
    split
    · exact coeffRef_add_eq T id id _ (hbc id hid) (hbc id hid)
    · exact coeffRef_add_eq T id id _ (hbc id hid) (hbc id hid)
  · rename_i h
    have hnil : bc = [] := List.length_eq_zero.mp (not_not.mp h)
    subst hnil
    simp [bc_sum]

theorem bc_loop_W {n s : Nat} (k bc : List Nat) (Q : MatrixXr s s) (hbc : ∀ id ∈ bc, id < n)
    (hQ : ∀ id ∈ bc, id ∈ k → id < s) (T : MatrixXr n n) :
    (if bc.length ≠ 0 then
      (List.range bc.length).foldlM (fun T i => do
        let id ← bc[i]?
        if id ∈ k then do
          let q ← coeff Q id id
          coeffRef_add T id id (pen - q)
        else coeffRef_add T id id pen) T
    else pure T) = some (T + bc_sum n bc (bc_inc_W k Q)) := by
  split
  · rw [foldlM_range_index bc
      (fun T id => if id ∈ k then do
          let q ← coeff Q id id
          coeffRef_add T id id (pen - q)
        else coeffRef_add T id id pen)]
    apply foldlM_add_steps
    intro id hid T
    unfold bc_inc_W
    split
    · rename_i hk
      rw [coeff_eq Q id id (hQ id hid hk) (hQ id hid hk)]
      simp only [Option.some_bind, Option.bind_eq_bind]
      exact coeffRef_add_eq T id id _ (hbc id hid) (hbc id hid)
    · exact coeffRef_add_eq T id id _ (hbc id hid) (hbc id hid)
  · rename_i h
    have hnil : bc = [] := List.length_eq_zero.mp (not_not.mp h)
    subst hnil
    simp [bc_sum]

theorem bc_sum_nil (n : Nat) (w : Nat → ℚ) : bc_sum n [] w = 0 := by
  simp [bc_sum]

theorem bc_sum_apply (n : Nat) (bc : List Nat) (w : Nat → ℚ) (a b : Fin n) :
    bc_sum n bc w a b = if a = b then (bc.count a.val : ℚ) * w a.val else 0 := by
  induction bc with
  | nil => simp [bc_sum]
  | cons id bc ih =>
    have hcons : bc_sum n (id :: bc) w = single n n id id (w id) + bc_sum n bc w := by
      simp [bc_sum]
    rw [hcons, Matrix.add_apply, ih]
    simp only [single, Matrix.of_apply, List.count_cons, beq_iff_eq]
    by_cases hab : a = b
    · subst hab
      by_cases ha : id = a.val
      · subst ha
        simp
        ring
      · have ha2 : ¬ (a.val = id) := fun h => ha h.symm
        simp [ha, ha2]
    · by_cases ha : a.val = id
      · have hb : ¬ (b.val = id) := fun h => hab (Fin.ext (ha.trans h.symm))
        simp [hab, hb]
      · simp [hab, ha]

/-! ### Closed forms of the two pointwise `T` builders -/

theorem set_T_ln_nW_ptw_eq {n : Nat} (T0 : MatrixXr n n) (k : List Nat) (s : Nat)
    (bc : List Nat) (hlen : k.length = s) (hlt : ∀ x ∈ k, x < n) (hbc : ∀ id ∈ bc, id < n) :
    set_T_ln_nW_ptw T0 k s bc = some (T0 + obs_nW n s k + bc_sum n bc (bc_inc_nW k)) := by
  unfold set_T_ln_nW_ptw
  rw [obs_loop_nW k s hlen hlt]
  simp only [Option.some_bind, Option.bind_eq_bind]
  exact bc_loop_nW k bc hbc _

theorem set_T_ln_W_ptw_eq {n s : Nat} (T0 : MatrixXr n n) (k : List Nat) (Q : MatrixXr s s)
    (bc : List Nat) (hlen : k.length = s) (hlt : ∀ x ∈ k, x < n) (hbc : ∀ id ∈ bc, id < n)
    (hQ : ∀ id ∈ bc, id ∈ k → id < s) :
    set_T_ln_W_ptw T0 k Q s bc = some (T0 + obs_W n s k Q + bc_sum n bc (bc_inc_W k Q)) := by
  unfold set_T_ln_W_ptw
  rw [obs_loop_W k s Q hlen hlt]
  simp only [Option.some_bind, Option.bind_eq_bind]
  exact bc_loop_W k bc Q hbc hQ _


/-! ### Entries of the observation totals -/

theorem range_map_nodeOf {β : Type} (l : List Nat) (g : Nat → β) :
    (List.range l.length).map (fun i => g (nodeOf l i)) = l.map g := by
  apply List.ext_getElem
  · simp
  · intro i h1 h2
    have hi : i < l.length := by simpa using h2
    have hn : nodeOf l i = l[i] := List.getD_eq_getElem _ _ hi
    simp [hn]

theorem obs_nW_eq_bc_sum (n s : Nat) (k : List Nat) (hlen : k.length = s) :
    obs_nW n s k = bc_sum n k (fun _ => 1) := by
  subst hlen
  unfold obs_nW bc_sum
  rw [range_map_nodeOf k (fun x => single n n x x 1)]

theorem obs_nW_apply (n s : Nat) (k : List Nat) (hlen : k.length = s) (a b : Fin n) :
    obs_nW n s k a b = if a = b then (k.count a.val : ℚ) else 0 := by
  rw [obs_nW_eq_bc_sum n s k hlen, bc_sum_apply]
  simp

theorem nodeOf_inj (k : List Nat) (hnd : k.Nodup) (i j : Nat) (hi : i < k.length)
    (hj : j < k.length) (h : nodeOf k i = nodeOf k j) : i = j := by
  unfold nodeOf at h
  rw [List.getD_eq_getElem _ _ hi, List.getD_eq_getElem _ _ hj] at h
  exact (hnd.getElem_inj_iff).mp h

theorem indicator_column (s n : Nat) (k : List Nat) (hlen : k.length = s) (hnd : k.Nodup)
    (i0 : Fin s) (a : Fin n) (ha : nodeOf k i0.val = a.val) (i : Fin s) :
    indicator s n k i a = if i = i0 then 1 else 0 := by
  rw [indicator_apply s n k hlen]
  by_cases h : i = i0
  · subst h
    simp [ha]
  · have hne : nodeOf k i.val ≠ a.val := by
      intro h2
      apply h
      apply Fin.ext
      exact nodeOf_inj k hnd _ _ (by rw [hlen]; exact i.isLt) (by rw [hlen]; exact i0.isLt)
        (h2.trans ha.symm)
    simp [h, hne]

theorem indicator_not_mem (s n : Nat) (k : List Nat) (hlen : k.length = s) (a : Fin n)
    (ha : a.val ∉ k) (i : Fin s) : indicator s n k i a = 0 := by
  rw [indicator_apply s n k hlen]
  have hne : nodeOf k i.val ≠ a.val := by
    intro h2
    apply ha
    rw [← h2]
    exact nodeOf_mem k i.val (by rw [hlen]; exact i.isLt)
  simp [hne]

theorem obs_W_diag (n s : Nat) (k : List Nat) (Q : MatrixXr s s) (hlen : k.length = s)
    (hnd : k.Nodup) (i0 : Fin s) (a : Fin n) (ha : nodeOf k i0.val = a.val) :
    obs_W n s k Q a a = Q i0 i0 := by
  rw [obs_W_eq_mul n s k Q hlen]
  simp only [Matrix.mul_apply, Matrix.transpose_apply, indicator_column s n k hlen hnd i0 a ha]
  simp

theorem obs_W_not_mem (n s : Nat) (k : List Nat) (Q : MatrixXr s s) (hlen : k.length = s)
    (a : Fin n) (ha : a.val ∉ k) : obs_W n s k Q a a = 0 := by
  rw [obs_W_eq_mul n s k Q hlen]
  simp only [Matrix.mul_apply, Matrix.transpose_apply, indicator_not_mem s n k hlen a ha]
  simp


/-! ### The overwriting boundary loop of the product builders -/

theorem with_boundary_nil {n : Nat} (temp : MatrixXr n n) : with_boundary temp [] = temp := by
  ext a b
  simp [with_boundary]

theorem coeffRef_assign_eq {r c : Nat} (M : MatrixXr r c) (i j : Nat) (v : ℚ)
    (hi : i < r) (hj : j < c) :
    coeffRef_assign M i j v =
      some (Matrix.of fun a b => if a.val = i ∧ b.val = j then v else M a b) := by
  unfold coeffRef_assign
  rw [if_pos ⟨hi, hj⟩]

theorem foldlM_assign_pen {n : Nat} (bc : List Nat) (hbc : ∀ id ∈ bc, id < n)
    (temp : MatrixXr n n) :
    bc.foldlM (fun T id => coeffRef_assign T id id pen) temp = some (with_boundary temp bc) := by
  induction bc generalizing temp with
  | nil => simp [with_boundary_nil]
  | cons id bc ih =>
    have hid : id < n := hbc id (List.mem_cons_self id bc)
    rw [List.foldlM_cons, coeffRef_assign_eq temp id id pen hid hid]
    simp only [Option.some_bind, Option.bind_eq_bind]
    rw [ih (fun y hy => hbc y (List.mem_cons_of_mem id hy))]
    congr 1
    ext a b
    simp only [with_boundary, Matrix.of_apply, List.mem_cons]
    by_cases hab : a = b
    · subst hab
      by_cases h1 : a.val = id
      · simp [h1]
      · by_cases h2 : a.val ∈ bc <;> simp [h1, h2]
    · have h3 : ¬ (a.val = id ∧ b.val = id) := fun h => hab (Fin.ext (h.1.trans h.2.symm))
      simp [hab, h3]

theorem overwrite_boundary_eq {n : Nat} (temp : MatrixXr n n) (bc : List Nat)
    (hbc : ∀ id ∈ bc, id < n) : overwrite_boundary temp bc = some (with_boundary temp bc) := by
  unfold overwrite_boundary
  simp only
  split
  · rw [foldlM_range_index bc (fun T id => coeffRef_assign T id id pen)]
    exact foldlM_assign_pen bc hbc temp
  · rename_i h
    have hnil : bc = [] := List.length_eq_zero.mp (not_not.mp h)
    subst hnil
    simp [with_boundary_nil]

/-! ### Translating the initial matrix -/

theorem coeffRef_add_shift {r c : Nat} (T0 T : MatrixXr r c) (i j : Nat) (v : ℚ) :
    coeffRef_add (T0 + T) i j v = (coeffRef_add T i j v).map (fun M => T0 + M) := by
  unfold coeffRef_add
  split
  · simp only [Option.map_some', Option.some.injEq]
    ext a b
    simp only [Matrix.of_apply, Matrix.add_apply]
    split <;> ring
  · rfl

theorem foldlM_shift {α : Type} {r c : Nat} (l : List α)
    (f : MatrixXr r c → α → Option (MatrixXr r c)) (T0 : MatrixXr r c)
    (h : ∀ x T, f (T0 + T) x = (f T x).map (fun M => T0 + M)) (T : MatrixXr r c) :
    l.foldlM f (T0 + T) = (l.foldlM f T).map (fun M => T0 + M) := by
  induction l generalizing T with
  | nil => rfl
  | cons x xs ih =>
    rw [List.foldlM_cons, List.foldlM_cons, h x T]
    cases f T x with
    | none => rfl
    | some T1 => exact ih T1

theorem set_T_ln_nW_ptw_shift {r c : Nat} (T0 T : MatrixXr r c) (k : List Nat) (s : Nat)
    (bc : List Nat) :
    set_T_ln_nW_ptw (T0 + T) k s bc = (set_T_ln_nW_ptw T k s bc).map (fun M => T0 + M) := by
  unfold set_T_ln_nW_ptw
  rw [foldlM_shift _ _ T0 _ T]
  · cases (List.range s).foldlM (fun T i => do
        let ki ← k[i]?
        coeffRef_add T ki ki 1) T with
    | none => rfl
    | some T1 =>
      simp only [Option.map_some', Option.some_bind, Option.bind_eq_bind]
      split
      · apply foldlM_shift
        intro i T2
        cases bc[i]? with
        | none => rfl
        | some id =>
          simp only [Option.some_bind, Option.bind_eq_bind]
          split <;> exact coeffRef_add_shift T0 T2 _ _ _
      · rfl
  · intro i T2
    cases k[i]? with
    | none => rfl
    | some ki => exact coeffRef_add_shift T0 T2 _ _ _

theorem set_T_ln_W_ptw_shift {r c qr qc : Nat} (T0 T : MatrixXr r c) (k : List Nat)
    (Q : MatrixXr qr qc) (s : Nat) (bc : List Nat) :
    set_T_ln_W_ptw (T0 + T) k Q s bc = (set_T_ln_W_ptw T k Q s bc).map (fun M => T0 + M) := by
  unfold set_T_ln_W_ptw
  rw [foldlM_shift _ _ T0 _ T]
  · cases (List.range s).foldlM (fun T i =>
        (List.range s).foldlM (fun T j => do
          let ki ← k[i]?
          let kj ← k[j]?
          let q ← coeff Q i j
          coeffRef_add T ki kj q) T) T with
    | none => rfl
    | some T1 =>
      simp only [Option.map_some', Option.some_bind, Option.bind_eq_bind]
      split
      · apply foldlM_shift
        intro i T2
        cases bc[i]? with
        | none => rfl
        | some id =>
          simp only [Option.some_bind, Option.bind_eq_bind]
          split
          · cases coeff Q id id with
            | none => rfl
            | some q => exact coeffRef_add_shift T0 T2 _ _ _
          · exact coeffRef_add_shift T0 T2 _ _ _
      · rfl
  · intro i T2
    apply foldlM_shift
    intro j T3
    cases k[i]? with
    | none => rfl
    | some ki =>
      cases k[j]? with
      | none => rfl
      | some kj =>
        cases coeff Q i j with
        | none => rfl
        | some q => exact coeffRef_add_shift T0 T3 _ _ _


/-! ## The claims on the matrix block builders -/

/-- C1: for `k` of exactly `s` entries, all below `n` (not necessarily injective),
and an empty boundary list, `set_T_ln_nW_ptw` turns any `n × n` matrix `T0`
into `T0 + Ψᵀ·Ψ`, `Ψ` being the `s × n` indicator matrix of `k`; from the zero
matrix the result is `Ψᵀ·Ψ`. -/
theorem set_T_ln_nW_ptw_indicator_product (n s : Nat) (k : List Nat) (T0 : MatrixXr n n)
    (hlen : k.length = s) (hlt : ∀ x ∈ k, x < n) :
    set_T_ln_nW_ptw T0 k s [] = some (T0 + (indicator s n k)ᵀ * indicator s n k) ∧
    set_T_ln_nW_ptw (0 : MatrixXr n n) k s [] =
      some ((indicator s n k)ᵀ * indicator s n k) := by
  have h : ∀ T : MatrixXr n n,
      set_T_ln_nW_ptw T k s [] = some (T + (indicator s n k)ᵀ * indicator s n k) := by
    intro T
    rw [set_T_ln_nW_ptw_eq T k s [] hlen hlt (by simp), bc_sum_nil, add_zero,
      obs_nW_eq_mul n s k hlen]
  refine ⟨h T0, ?_⟩
  rw [h 0, zero_add]

/-- Witness for C1: three observations on a three-node mesh, two of them on node 2. -/
theorem set_T_ln_nW_ptw_indicator_product_witness :
    ([2, 0, 2].length = 3 ∧ ∀ x ∈ [2, 0, 2], x < 3) ∧
    (set_T_ln_nW_ptw (1 : MatrixXr 3 3) [2, 0, 2] 3 [] =
        some (1 + (indicator 3 3 [2, 0, 2])ᵀ * indicator 3 3 [2, 0, 2]) ∧
      set_T_ln_nW_ptw (0 : MatrixXr 3 3) [2, 0, 2] 3 [] =
        some ((indicator 3 3 [2, 0, 2])ᵀ * indicator 3 3 [2, 0, 2])) :=
  ⟨⟨by decide, by decide⟩,
    set_T_ln_nW_ptw_indicator_product 3 3 [2, 0, 2] 1 (by decide) (by decide)⟩

/-- C2: for `k` of exactly `s` entries, all below `nr`, and an `s × s` matrix
`Q`, `set_E_ln_W_ptw` leaves `E` equal to the `nr × s` matrix `Ψᵀ·Q`; the result
is the same whatever `E` held (and whatever size it had) before the call, and
every row of the result whose index is not a value of `k` is zero. -/
theorem set_E_ln_W_ptw_indicator_product (nr s : Nat) (k : List Nat) (Q : MatrixXr s s)
    (er ec : Nat) (E : MatrixXr er ec) (hlen : k.length = s) (hlt : ∀ x ∈ k, x < nr) :
    set_E_ln_W_ptw E k Q nr s = some ((indicator s nr k)ᵀ * Q) ∧
    (∀ (er2 ec2 : Nat) (E2 : MatrixXr er2 ec2),
      set_E_ln_W_ptw E2 k Q nr s = set_E_ln_W_ptw E k Q nr s) ∧
    (∃ M, set_E_ln_W_ptw E k Q nr s = some M ∧
      ∀ a : Fin nr, a.val ∉ k → ∀ j : Fin s, M a j = 0) := by
  have h : set_E_ln_W_ptw E k Q nr s = some ((indicator s nr k)ᵀ * Q) := by
    unfold set_E_ln_W_ptw
    simp only
    rw [obs_loop_E k s Q hlen hlt, zero_add, obs_E_eq_mul nr s k Q hlen]
  refine ⟨h, fun _ _ _ => rfl, _, h, ?_⟩
  intro a ha j
  simp only [Matrix.mul_apply, Matrix.transpose_apply, indicator_not_mem s nr k hlen a ha]
  simp

/-- Witness for C2: two observations on nodes 2 and 0 of a three-node mesh. -/
theorem set_E_ln_W_ptw_indicator_product_witness :
    ([2, 0].length = 2 ∧ ∀ x ∈ [2, 0], x < 3) ∧
    (set_E_ln_W_ptw (1 : MatrixXr 4 4) [2, 0] (!![1, 2; 3, 4] : MatrixXr 2 2) 3 2 =
        some ((indicator 2 3 [2, 0])ᵀ * (!![1, 2; 3, 4] : MatrixXr 2 2)) ∧
      (∀ (er2 ec2 : Nat) (E2 : MatrixXr er2 ec2),
        set_E_ln_W_ptw E2 [2, 0] (!![1, 2; 3, 4] : MatrixXr 2 2) 3 2 =
          set_E_ln_W_ptw (1 : MatrixXr 4 4) [2, 0] (!![1, 2; 3, 4] : MatrixXr 2 2) 3 2) ∧
      (∃ M, set_E_ln_W_ptw (1 : MatrixXr 4 4) [2, 0] (!![1, 2; 3, 4] : MatrixXr 2 2) 3 2 =
          some M ∧ ∀ a : Fin 3, a.val ∉ [2, 0] → ∀ j : Fin 2, M a j = 0)) :=
  ⟨⟨by decide, by decide⟩,
    set_E_ln_W_ptw_indicator_product 3 2 [2, 0] !![1, 2; 3, 4] 4 4 1 (by decide) (by decide)⟩

/-- C3: for `k` of exactly `s` entries, all below `n` (not necessarily injective),
an `s × s` matrix `Q` and an empty boundary list, `set_T_ln_W_ptw` turns any
`n × n` matrix `T0` into `T0 + Ψᵀ·Q·Ψ`. -/
theorem set_T_ln_W_ptw_indicator_product (n s : Nat) (k : List Nat) (Q : MatrixXr s s)
    (T0 : MatrixXr n n) (hlen : k.length = s) (hlt : ∀ x ∈ k, x < n) :
    set_T_ln_W_ptw T0 k Q s [] =
      some (T0 + (indicator s n k)ᵀ * Q * indicator s n k) := by
  rw [set_T_ln_W_ptw_eq T0 k Q [] hlen hlt (by simp) (by simp), bc_sum_nil, add_zero,
    obs_W_eq_mul n s k Q hlen]

/-- Witness for C3: two observations sharing node 2 of a three-node mesh. -/
theorem set_T_ln_W_ptw_indicator_product_witness :
    ([2, 2].length = 2 ∧ ∀ x ∈ [2, 2], x < 3) ∧
    set_T_ln_W_ptw (1 : MatrixXr 3 3) [2, 2] (!![1, 2; 3, 4] : MatrixXr 2 2) 2 [] =
      some (1 + (indicator 2 3 [2, 2])ᵀ * (!![1, 2; 3, 4] : MatrixXr 2 2) *
        indicator 2 3 [2, 2]) :=
  ⟨⟨by decide, by decide⟩,
    set_T_ln_W_ptw_indicator_product 3 2 [2, 2] !![1, 2; 3, 4] 1 (by decide) (by decide)⟩


/-! ### Diagonal entries after the pointwise builders -/

theorem pen_eq : pen = 10 ^ 21 := by
  unfold pen
  norm_num

/-- Diagonal entry of the unweighted pointwise builder, from any start. -/
theorem nW_diag_entry {n : Nat} (T0 : MatrixXr n n) (k : List Nat) (s : Nat) (bc : List Nat)
    (hlen : k.length = s) (hlt : ∀ x ∈ k, x < n) (hbc : ∀ id ∈ bc, id < n) :
    ∃ M, set_T_ln_nW_ptw T0 k s bc = some M ∧
      ∀ a : Fin n, M a a =
        T0 a a + (k.count a.val : ℚ) + (bc.count a.val : ℚ) * bc_inc_nW k a.val := by
  refine ⟨_, set_T_ln_nW_ptw_eq T0 k s bc hlen hlt hbc, ?_⟩
  intro a
  rw [Matrix.add_apply, Matrix.add_apply, obs_nW_apply n s k hlen, bc_sum_apply]
  simp

/-- Diagonal entry of the weighted pointwise builder at an observation node. -/
theorem W_diag_entry_obs {n s : Nat} (T0 : MatrixXr n n) (k : List Nat) (Q : MatrixXr s s)
    (bc : List Nat) (hlen : k.length = s) (hlt : ∀ x ∈ k, x < n) (hnd : k.Nodup)
    (hbc : ∀ id ∈ bc, id < n) (hQ : ∀ id ∈ bc, id ∈ k → id < s) :
    ∃ M, set_T_ln_W_ptw T0 k Q s bc = some M ∧
      ∀ (a : Fin n) (i0 : Fin s), nodeOf k i0.val = a.val →
        M a a = T0 a a + Q i0 i0 + (bc.count a.val : ℚ) * (pen - entryOf Q a.val a.val) := by
  refine ⟨_, set_T_ln_W_ptw_eq T0 k Q bc hlen hlt hbc hQ, ?_⟩
  intro a i0 ha
  have hmem : a.val ∈ k := by
    rw [← ha]
    exact nodeOf_mem k i0.val (by rw [hlen]; exact i0.isLt)
  rw [Matrix.add_apply, Matrix.add_apply, obs_W_diag n s k Q hlen hnd i0 a ha, bc_sum_apply]
  simp [bc_inc_W, hmem]

/-- Diagonal entry of the weighted pointwise builder away from the observation nodes. -/
theorem W_diag_entry_free {n s : Nat} (T0 : MatrixXr n n) (k : List Nat) (Q : MatrixXr s s)
    (bc : List Nat) (hlen : k.length = s) (hlt : ∀ x ∈ k, x < n)
    (hbc : ∀ id ∈ bc, id < n) (hQ : ∀ id ∈ bc, id ∈ k → id < s) :
    ∃ M, set_T_ln_W_ptw T0 k Q s bc = some M ∧
      ∀ a : Fin n, a.val ∉ k → M a a = T0 a a + (bc.count a.val : ℚ) * pen := by
  refine ⟨_, set_T_ln_W_ptw_eq T0 k Q bc hlen hlt hbc hQ, ?_⟩
  intro a ha
  rw [Matrix.add_apply, Matrix.add_apply, obs_W_not_mem n s k Q hlen a ha, bc_sum_apply]
  simp [bc_inc_W, ha]

theorem count_of_nodup_mem (l : List Nat) (x : Nat) (hnd : l.Nodup) (hx : x ∈ l) :
    (l.count x : ℚ) = 1 := by
  rw [List.count_eq_one_of_mem hnd hx]
  simp

theorem count_of_not_mem (l : List Nat) (x : Nat) (hx : x ∉ l) : (l.count x : ℚ) = 0 := by
  rw [List.count_eq_zero_of_not_mem hx]
  simp


/-- C4 (as stated) fails: on a two-node mesh with one observation on node 0,
`Q[0,0] = 1048576` and boundary list `[0, 1]`, the weighted pointwise builder
started from zero ends with `T[0,0] = Q[0,0] + (pen - Q[0,0]) = pen`, not with
`pen - Q[0,0]`: the boundary increment is added to what the observation loop
left.  The numbers `1048576 = 2^20`, `10^21` and `10^21 - 2^20` are binary
floating-point numbers of 53 significant bits, so the two sums are exact in
double precision as well.  The unweighted builder ends with `T[0,0] = pen` too. -/
theorem boundary_penalty_claimed_values_fail :
    (∃ M, set_T_ln_W_ptw (0 : MatrixXr 2 2) [0] (!![1048576] : MatrixXr 1 1) 1 [0, 1] =
      some M ∧ M 0 0 = pen ∧ M 0 0 ≠ pen - (!![1048576] : MatrixXr 1 1) 0 0) ∧
    (∃ M, set_T_ln_nW_ptw (0 : MatrixXr 2 2) [0] 1 [0, 1] = some M ∧ M 0 0 = pen) := by
  constructor
  · obtain ⟨M, hM, hd⟩ := W_diag_entry_obs (0 : MatrixXr 2 2) [0]
      (!![1048576] : MatrixXr 1 1) [0, 1] (by decide) (by decide) (by decide) (by decide)
      (by decide)
    have h00 : M 0 0 = pen := by
      rw [hd 0 0 (by decide)]
      simp [entryOf, coeff]
    refine ⟨M, hM, h00, ?_⟩
    rw [h00]
    intro h
    have h3 : (!![1048576] : MatrixXr 1 1) 0 0 = 1048576 := by simp
    rw [h3] at h
    linarith
  · obtain ⟨M, hM, hd⟩ := nW_diag_entry (0 : MatrixXr 2 2) [0] 1 [0, 1] (by decide)
      (by decide) (by decide)
    refine ⟨M, hM, ?_⟩
    rw [hd 0]
    simp [bc_inc_nW]

/-- C4 (amended): from a zero `n × n` matrix, with an injective `k` of exactly
`s` entries below `n` and a boundary list made of an observation node `a` and a
node `b` that is not one (in either order), the unweighted pointwise builder
ends with `T[a,a] = pen` and `T[b,b] = pen`; the weighted pointwise builder,
provided `a < s` (the read `Q(a, a)` is then inside `Q`), ends with
`T[b,b] = pen`, and with `T[a,a] = pen` when moreover `a` is its own
observation index (`k[a] = a`). -/
theorem boundary_penalty_entries (n s : Nat) (k : List Nat) (Q : MatrixXr s s) (a b : Fin n)
    (bc : List Nat) (hlen : k.length = s) (hlt : ∀ x ∈ k, x < n) (hnd : k.Nodup)
    (ha : a.val ∈ k) (hb : b.val ∉ k) (hbc : bc = [a.val, b.val] ∨ bc = [b.val, a.val]) :
    (∃ M, set_T_ln_nW_ptw (0 : MatrixXr n n) k s bc = some M ∧ M a a = pen ∧ M b b = pen) ∧
    (a.val < s →
      ∃ M, set_T_ln_W_ptw (0 : MatrixXr n n) k Q s bc = some M ∧ M b b = pen ∧
        (k[a.val]? = some a.val → M a a = pen)) := by
  have hab : a.val ≠ b.val := fun h => hb (h ▸ ha)
  have hbcn : bc.Nodup := by
    rcases hbc with h | h <;> subst h <;> simp [hab, Ne.symm hab]
  have hamem : a.val ∈ bc := by
    rcases hbc with h | h <;> subst h <;> simp
  have hbmem : b.val ∈ bc := by
    rcases hbc with h | h <;> subst h <;> simp
  have hbclt : ∀ id ∈ bc, id < n := by
    intro id hid
    rcases hbc with h | h <;> subst h <;> simp at hid <;> rcases hid with h | h <;>
      subst h <;> first | exact a.isLt | exact b.isLt
  constructor
  · obtain ⟨M, hM, hd⟩ := nW_diag_entry (0 : MatrixXr n n) k s bc hlen hlt hbclt
    refine ⟨M, hM, ?_, ?_⟩
    · rw [hd a, count_of_nodup_mem k _ hnd ha, count_of_nodup_mem bc _ hbcn hamem]
      simp [bc_inc_nW, ha]
    · rw [hd b, count_of_not_mem k _ hb, count_of_nodup_mem bc _ hbcn hbmem]
      simp [bc_inc_nW, hb]
  · intro has
    have hQ : ∀ id ∈ bc, id ∈ k → id < s := by
      intro id hid hk
      rcases hbc with h | h <;> subst h <;> simp at hid <;> rcases hid with h | h <;>
        subst h <;> first | exact has | exact absurd hk hb
    obtain ⟨M, hM, hd⟩ := W_diag_entry_obs (0 : MatrixXr n n) k Q bc hlen hlt hnd hbclt hQ
    obtain ⟨M2, hM2, hd2⟩ := W_diag_entry_free (0 : MatrixXr n n) k Q bc hlen hlt hbclt hQ
    have hMM : M2 = M := Option.some.inj (hM2.symm.trans hM)
    subst hMM
    refine ⟨M2, hM, ?_, ?_⟩
    · rw [hd2 b hb, count_of_nodup_mem bc _ hbcn hbmem]
      simp
    · intro hka
      have hnode : nodeOf k a.val = a.val := by
        have h2 := getElem?_of_lt_length k a.val (by rw [hlen]; exact has)
        rw [hka] at h2
        exact (Option.some.inj h2).symm
      rw [hd a ⟨a.val, has⟩ hnode, count_of_nodup_mem bc _ hbcn hamem,
        entryOf_fin Q ⟨a.val, has⟩ ⟨a.val, has⟩]
      simp

/-- Witness for C4: three nodes, observations on nodes 0 and 1 (each its own
observation index), boundary list `[1, 2]`. -/
theorem boundary_penalty_entries_witness :
    ([0, 1].length = 2 ∧ (∀ x ∈ [0, 1], x < 3) ∧ [0, 1].Nodup ∧
      (1 : Fin 3).val ∈ [0, 1] ∧ (2 : Fin 3).val ∉ [0, 1] ∧ (1 : Fin 3).val < 2 ∧
      [0, 1][(1 : Fin 3).val]? = some (1 : Fin 3).val) ∧
    (∃ M, set_T_ln_nW_ptw (0 : MatrixXr 3 3) [0, 1] 2 [1, 2] = some M ∧
      M 1 1 = pen ∧ M 2 2 = pen) ∧
    (∃ M, set_T_ln_W_ptw (0 : MatrixXr 3 3) [0, 1] (!![5, 7; 7, 9] : MatrixXr 2 2) 2 [1, 2] =
      some M ∧ M 2 2 = pen ∧ M 1 1 = pen) := by
  have h := boundary_penalty_entries 3 2 [0, 1] !![5, 7; 7, 9] 1 2 [1, 2] (by decide)
    (by decide) (by decide) (by decide) (by decide) (Or.inl rfl)
  obtain ⟨M, h1, h2, h3⟩ := h.2 (by decide)
  exact ⟨⟨by decide, by decide, by decide, by decide, by decide, by decide, by decide⟩,
    h.1, M, h1, h2, h3 (by decide)⟩


/-! ### Closed forms of the two product builders -/

theorem set_T_lnn_nW_ptw_eq {n s : Nat} (T : MatrixXr n n) (psi : SpMat s n) (psi_t : SpMat n s)
    (bc : List Nat) (hbc : ∀ id ∈ bc, id < n) :
    set_T_lnn_nW_ptw T psi psi_t bc = some (T + with_boundary (psi_t * psi) bc) := by
  unfold set_T_lnn_nW_ptw
  simp only
  rw [overwrite_boundary_eq _ bc hbc]
  rfl

theorem set_T_lnn_W_ptw_eq {n s : Nat} (T : MatrixXr n n) (psi : SpMat s n) (psi_t : SpMat n s)
    (Q : MatrixXr s s) (bc : List Nat) (hbc : ∀ id ∈ bc, id < n) :
    set_T_lnn_W_ptw T psi psi_t Q bc = some (T + with_boundary (psi_t * Q * psi) bc) := by
  unfold set_T_lnn_W_ptw
  simp only
  rw [overwrite_boundary_eq _ bc hbc]
  rfl

theorem with_boundary_mem {n : Nat} (temp : MatrixXr n n) (bc : List Nat) (a : Fin n)
    (ha : a.val ∈ bc) : with_boundary temp bc a a = pen := by
  simp [with_boundary, ha]

theorem with_boundary_other {n : Nat} (temp : MatrixXr n n) (bc : List Nat) (a b : Fin n)
    (h : ¬ (a = b ∧ a.val ∈ bc)) : with_boundary temp bc a b = temp a b := by
  simp only [with_boundary, Matrix.of_apply]
  rw [if_neg h]

/-! ## The penalty constant -/

/-- C5 (as stated) fails: with a single boundary index that is not an
observation node and a zero initial matrix, each of the four builders leaves
`10^21` on the boundary diagonal, which is not `10^20`: the literal `10e20` is
ten times `10^20`. -/
theorem penalty_constant_is_not_1e20 :
    (∃ M, set_T_ln_nW_ptw (0 : MatrixXr 1 1) [] 0 [0] = some M ∧ M 0 0 ≠ 10 ^ 20) ∧
    (∃ M, set_T_ln_W_ptw (0 : MatrixXr 1 1) [] (0 : MatrixXr 0 0) 0 [0] = some M ∧
      M 0 0 ≠ 10 ^ 20) ∧
    (∃ M, set_T_lnn_nW_ptw (0 : MatrixXr 1 1) (0 : SpMat 0 1) (0 : SpMat 1 0) [0] = some M ∧
      M 0 0 ≠ 10 ^ 20) ∧
    (∃ M, set_T_lnn_W_ptw (0 : MatrixXr 1 1) (0 : SpMat 0 1) (0 : SpMat 1 0)
      (0 : MatrixXr 0 0) [0] = some M ∧ M 0 0 ≠ 10 ^ 20) := by
  refine ⟨?_, ?_, ?_, ?_⟩
  · obtain ⟨M, hM, hd⟩ := nW_diag_entry (0 : MatrixXr 1 1) [] 0 [0] (by decide) (by decide)
      (by decide)
    refine ⟨M, hM, ?_⟩
    rw [hd 0]
    simp [bc_inc_nW, pen_eq]
  · obtain ⟨M, hM, hd⟩ := W_diag_entry_free (0 : MatrixXr 1 1) [] (0 : MatrixXr 0 0) [0]
      (by decide) (by decide) (by decide) (by decide)
    refine ⟨M, hM, ?_⟩
    rw [hd 0 (by decide)]
    simp [pen_eq]
  · refine ⟨_, set_T_lnn_nW_ptw_eq _ _ _ [0] (by decide), ?_⟩
    rw [Matrix.add_apply, with_boundary_mem _ [0] 0 (by decide)]
    simp [pen_eq]
  · refine ⟨_, set_T_lnn_W_ptw_eq _ _ _ _ [0] (by decide), ?_⟩
    rw [Matrix.add_apply, with_boundary_mem _ [0] 0 (by decide)]
    simp [pen_eq]

/-- C5 (amended): the penalty constant the four boundary-handling builders put
on a boundary diagonal is exactly `10^21` (the literal `10e20`): from a zero
initial matrix and with a single boundary index `id` that is not an observation
node, `T[id,id] = 10^21` after the call. -/
theorem penalty_constant_value (n s : Nat) (k : List Nat) (Q : MatrixXr s s) (psi : SpMat s n)
    (psi_t : SpMat n s) (id : Fin n) (hlen : k.length = s) (hlt : ∀ x ∈ k, x < n)
    (hid : id.val ∉ k) :
    (∃ M, set_T_ln_nW_ptw (0 : MatrixXr n n) k s [id.val] = some M ∧ M id id = 10 ^ 21) ∧
    (∃ M, set_T_ln_W_ptw (0 : MatrixXr n n) k Q s [id.val] = some M ∧ M id id = 10 ^ 21) ∧
    (∃ M, set_T_lnn_nW_ptw (0 : MatrixXr n n) psi psi_t [id.val] = some M ∧
      M id id = 10 ^ 21) ∧
    (∃ M, set_T_lnn_W_ptw (0 : MatrixXr n n) psi psi_t Q [id.val] = some M ∧
      M id id = 10 ^ 21) := by
  have hbc : ∀ x ∈ [id.val], x < n := by
    intro x hx
    rw [List.mem_singleton] at hx
    rw [hx]
    exact id.isLt
  have hQ : ∀ x ∈ [id.val], x ∈ k → x < s := by
    intro x hx hk
    rw [List.mem_singleton] at hx
    rw [hx] at hk
    exact absurd hk hid
  refine ⟨?_, ?_, ?_, ?_⟩
  · obtain ⟨M, hM, hd⟩ := nW_diag_entry (0 : MatrixXr n n) k s [id.val] hlen hlt hbc
    refine ⟨M, hM, ?_⟩
    rw [hd id, count_of_not_mem k _ hid]
    simp [bc_inc_nW, hid, pen_eq]
  · obtain ⟨M, hM, hd⟩ := W_diag_entry_free (0 : MatrixXr n n) k Q [id.val] hlen hlt hbc hQ
    refine ⟨M, hM, ?_⟩
    rw [hd id hid]
    simp [pen_eq]
  · refine ⟨_, set_T_lnn_nW_ptw_eq _ _ _ [id.val] hbc, ?_⟩
    rw [Matrix.add_apply, with_boundary_mem _ [id.val] id (List.mem_singleton_self _)]
    simp [pen_eq]
  · refine ⟨_, set_T_lnn_W_ptw_eq _ _ _ _ [id.val] hbc, ?_⟩
    rw [Matrix.add_apply, with_boundary_mem _ [id.val] id (List.mem_singleton_self _)]
    simp [pen_eq]

/-- Witness for C5: two observations on nodes 0 and 1 of a three-node mesh,
boundary index 2. -/
theorem penalty_constant_value_witness :
    ([0, 1].length = 2 ∧ (∀ x ∈ [0, 1], x < 3) ∧ (2 : Fin 3).val ∉ [0, 1]) ∧
    (∃ M, set_T_ln_nW_ptw (0 : MatrixXr 3 3) [0, 1] 2 [(2 : Fin 3).val] = some M ∧
      M 2 2 = 10 ^ 21) ∧
    (∃ M, set_T_ln_W_ptw (0 : MatrixXr 3 3) [0, 1] (!![5, 7; 7, 9] : MatrixXr 2 2) 2
      [(2 : Fin 3).val] = some M ∧ M 2 2 = 10 ^ 21) ∧
    (∃ M, set_T_lnn_nW_ptw (0 : MatrixXr 3 3) (indicator 2 3 [0, 1]) (indicator 2 3 [0, 1])ᵀ
      [(2 : Fin 3).val] = some M ∧ M 2 2 = 10 ^ 21) ∧
    (∃ M, set_T_lnn_W_ptw (0 : MatrixXr 3 3) (indicator 2 3 [0, 1]) (indicator 2 3 [0, 1])ᵀ
      (!![5, 7; 7, 9] : MatrixXr 2 2) [(2 : Fin 3).val] = some M ∧ M 2 2 = 10 ^ 21) :=
  ⟨⟨by decide, by decide, by decide⟩,
    penalty_constant_value 3 2 [0, 1] !![5, 7; 7, 9] (indicator 2 3 [0, 1])
      (indicator 2 3 [0, 1])ᵀ 2 (by decide) (by decide) (by decide)⟩

/-! ## The correction at a boundary node that is an observation node -/

/-- C6, evaluated at two inputs the claim covers: a three-node mesh whose node 0
has no observation, so `k = [1, 2]` (injective, increasing), with
`Q = diag(1, 2)` (symmetric) and a zero initial matrix.  (1) Boundary list `[1]`:
node 1 is the node of observation 0, the observation loop puts `Q[0,0] = 1` on
`T[1,1]`, the boundary step adds `pen - Q[1,1] = pen - 2`, and the builder ends
with `T[1,1] = pen - 1`, not `pen`.  (2) Boundary list `[2]`: the boundary step
reads `Q(2, 2)` in a `2 × 2` matrix, outside its range, and no result is
produced. -/
theorem weighted_boundary_correction_misindexed :
    (∃ M, set_T_ln_W_ptw (0 : MatrixXr 3 3) [1, 2] (!![1, 0; 0, 2] : MatrixXr 2 2) 2 [1] =
      some M ∧ M 1 1 = pen - 1 ∧ M 1 1 ≠ pen) ∧
    set_T_ln_W_ptw (0 : MatrixXr 3 3) [1, 2] (!![1, 0; 0, 2] : MatrixXr 2 2) 2 [2] = none := by
  constructor
  · obtain ⟨M, hM, hd⟩ := W_diag_entry_obs (0 : MatrixXr 3 3) [1, 2]
      (!![1, 0; 0, 2] : MatrixXr 2 2) [1] (by decide) (by decide) (by decide) (by decide)
      (by decide)
    have h11 : M 1 1 = pen - 1 := by
      rw [hd 1 0 (by decide)]
      have hq : entryOf (!![1, 0; 0, 2] : MatrixXr 2 2) (1 : Fin 3).val (1 : Fin 3).val = 2 := by
        have h2 := entryOf_fin (!![1, 0; 0, 2] : MatrixXr 2 2) 1 1
        simpa using h2
      rw [hq]
      simp
      ring
    refine ⟨M, hM, h11, ?_⟩
    rw [h11]
    intro h
    linarith
  · rfl

/-! ## The product builders overwrite the boundary diagonal -/

/-- C7: in `set_T_lnn_nW_ptw` (`M = psi_t·psi`) and `set_T_lnn_W_ptw`
(`M = psi_t·Q·psi`), started from the zero matrix with boundary indices below
`n`, the result has `pen` at `T[id,id]` for every boundary index `id`, whatever
`M[id,id]` was and however often `id` is listed, and every other entry
(off-diagonal entries of boundary rows and columns included) is the entry of
`M`; with an empty boundary list the result is `M`. -/
theorem product_builders_overwrite_boundary (n s : Nat) (psi : SpMat s n) (psi_t : SpMat n s)
    (Q : MatrixXr s s) (bc : List Nat) (hbc : ∀ id ∈ bc, id < n) :
    (∃ T, set_T_lnn_nW_ptw (0 : MatrixXr n n) psi psi_t bc = some T ∧
      (∀ a : Fin n, a.val ∈ bc → T a a = pen) ∧
      (∀ a b : Fin n, ¬ (a = b ∧ a.val ∈ bc) → T a b = (psi_t * psi) a b)) ∧
    (∃ T, set_T_lnn_W_ptw (0 : MatrixXr n n) psi psi_t Q bc = some T ∧
      (∀ a : Fin n, a.val ∈ bc → T a a = pen) ∧
      (∀ a b : Fin n, ¬ (a = b ∧ a.val ∈ bc) → T a b = (psi_t * Q * psi) a b)) ∧
    set_T_lnn_nW_ptw (0 : MatrixXr n n) psi psi_t [] = some (psi_t * psi) ∧
    set_T_lnn_W_ptw (0 : MatrixXr n n) psi psi_t Q [] = some (psi_t * Q * psi) := by
  refine ⟨⟨_, set_T_lnn_nW_ptw_eq _ _ _ bc hbc, ?_, ?_⟩,
    ⟨_, set_T_lnn_W_ptw_eq _ _ _ _ bc hbc, ?_, ?_⟩, ?_, ?_⟩
  · intro a ha
    rw [zero_add, with_boundary_mem _ bc a ha]
  · intro a b h
    rw [zero_add, with_boundary_other _ bc a b h]
  · intro a ha
    rw [zero_add, with_boundary_mem _ bc a ha]
  · intro a b h
    rw [zero_add, with_boundary_other _ bc a b h]
  · rw [set_T_lnn_nW_ptw_eq _ _ _ [] (by simp), zero_add, with_boundary_nil]
  · rw [set_T_lnn_W_ptw_eq _ _ _ _ [] (by simp), zero_add, with_boundary_nil]

/-- Witness for C7: boundary list `[1, 1, 0]` (node 1 listed twice) on a
three-node mesh with two observations. -/
theorem product_builders_overwrite_boundary_witness :
    (∀ id ∈ [1, 1, 0], id < 3) ∧
    (∃ T, set_T_lnn_nW_ptw (0 : MatrixXr 3 3) (!![1, 2, 0; 0, 3, 4] : SpMat 2 3)
        (!![1, 0; 2, 3; 0, 4] : SpMat 3 2) [1, 1, 0] = some T ∧
      (∀ a : Fin 3, a.val ∈ [1, 1, 0] → T a a = pen) ∧
      (∀ a b : Fin 3, ¬ (a = b ∧ a.val ∈ [1, 1, 0]) →
        T a b = ((!![1, 0; 2, 3; 0, 4] : SpMat 3 2) * (!![1, 2, 0; 0, 3, 4] : SpMat 2 3)) a b)) :=
  ⟨by decide,
    (product_builders_overwrite_boundary 3 2 !![1, 2, 0; 0, 3, 4] !![1, 0; 2, 3; 0, 4]
      !![5, 7; 7, 9] [1, 1, 0] (by decide)).1⟩

/-! ## Every `T` builder accumulates into the caller's matrix -/

/-- C8: each of the six `T` builders, called on an initial matrix `T0`, gives
`T0` plus what the same call gives on the zero matrix, for every `T0` and every
other input (boundary list included; a call that leaves the matrices on `T0`
leaves them on the zero matrix too, and conversely). -/
theorem T_builders_accumulate (n s : Nat) (T0 : MatrixXr n n) (Ap : VectorXr s)
    (psi : SpMat s n) (psi_t : SpMat n s) (qr qc : Nat) (Q : MatrixXr s s)
    (Qg : MatrixXr qr qc) (k : List Nat) (s2 : Nat) (bc : List Nat) :
    set_T_nW_a T0 Ap psi psi_t = T0 + set_T_nW_a 0 Ap psi psi_t ∧
    set_T_W_a T0 Ap psi psi_t Q = T0 + set_T_W_a 0 Ap psi psi_t Q ∧
    set_T_ln_nW_ptw T0 k s2 bc = (set_T_ln_nW_ptw 0 k s2 bc).map (fun M => T0 + M) ∧
    set_T_ln_W_ptw T0 k Qg s2 bc = (set_T_ln_W_ptw 0 k Qg s2 bc).map (fun M => T0 + M) ∧
    set_T_lnn_nW_ptw T0 psi psi_t bc =
      (set_T_lnn_nW_ptw 0 psi psi_t bc).map (fun M => T0 + M) ∧
    set_T_lnn_W_ptw T0 psi psi_t Q bc =
      (set_T_lnn_W_ptw 0 psi psi_t Q bc).map (fun M => T0 + M) := by
  refine ⟨?_, ?_, ?_, ?_, ?_, ?_⟩
  · simp [set_T_nW_a]
  · simp [set_T_W_a]
  · have h := set_T_ln_nW_ptw_shift T0 0 k s2 bc
    rwa [add_zero] at h
  · have h := set_T_ln_W_ptw_shift T0 0 k Qg s2 bc
    rwa [add_zero] at h
  · unfold set_T_lnn_nW_ptw
    simp only
    cases overwrite_boundary (psi_t * psi) bc with
    | none => rfl
    | some temp => simp
  · unfold set_T_lnn_W_ptw
    simp only
    cases overwrite_boundary (psi_t * Q * psi) bc with
    | none => rfl
    | some temp => simp


/-! ## Method selection and carrier construction -/

theorem optimizer_method_selection_unsupported {Sol Out Res : Type}
    (env : Collaborators Sol Out Res) (carrier : Carrier)
    (h1 : ¬ (carrier.opt_data.loss_function = "GCV" ∧ carrier.opt_data.DOF_evaluation = "exact"))
    (h2 : ¬ (carrier.opt_data.loss_function = "GCV" ∧
      carrier.opt_data.DOF_evaluation = "stochastic")) :
    optimizer_method_selection env carrier = ([], none) := by
  unfold optimizer_method_selection
  simp only
  rw [if_neg h1, if_neg h2]
  split
  · rfl
  · split <;> rfl

theorem carriers_built_append (l1 l2 : List Event) :
    carriers_built (l1 ++ l2) = carriers_built l1 ++ carriers_built l2 := by
  induction l1 with
  | nil => rfl
  | cons e es ih => cases e <;> simp [carriers_built, ih]

theorem carriers_built_strategy {Sol Out Res : Type} (env : Collaborators Sol Out Res)
    (optim : EvaluationType) (carrier : Carrier) :
    carriers_built (optimizer_strategy_selection env optim carrier).1 = [] := by
  unfold optimizer_strategy_selection
  simp only
  split <;> rfl

theorem carriers_built_method {Sol Out Res : Type} (env : Collaborators Sol Out Res)
    (carrier : Carrier) : carriers_built (optimizer_method_selection env carrier).1 = [] := by
  unfold optimizer_method_selection
  simp only
  split
  · simp [carriers_built, carriers_built_strategy]
  · split
    · simp [carriers_built, carriers_built_strategy]
    · split
      · rfl
      · split <;> rfl

theorem evaluators_built_append (l1 l2 : List Event) :
    evaluators_built (l1 ++ l2) = evaluators_built l1 ++ evaluators_built l2 := by
  induction l1 with
  | nil => rfl
  | cons e es ih => cases e <;> simp [evaluators_built, ih]

theorem apply_calls_append (l1 l2 : List Event) :
    apply_calls (l1 ++ l2) = apply_calls l1 ++ apply_calls l2 := by
  induction l1 with
  | nil => rfl
  | cons e es ih => cases e <;> simp [apply_calls, ih]

/-- C9, evaluated at the pair ("GCV", "not_required") on a pointwise problem
that is not space-varying: `regression_skeleton` has built the plain carrier
(its run starts with `preapply`, the message and that construction) before it
calls `optimizer_method_selection`, and `optimizer_method_selection` makes no
call and reaches its end without a `return` statement, so no configuration
error is reported to the caller. -/
theorem carrier_built_before_method_selection :
    optimizer_method_selection sample_collaborators
        ⟨CarrierType.plain, ⟨"GCV", "not_required", "newton", 1, []⟩⟩ = ([], none) ∧
    carriers_built (regression_skeleton sample_collaborators false 0
        ⟨"GCV", "not_required", "newton", 1, []⟩).1 = [CarrierType.plain] ∧
    (regression_skeleton sample_collaborators false 0
        ⟨"GCV", "not_required", "newton", 1, []⟩).1.take 3 =
      [Event.preapply, Event.Rprintf "Pointwise\n", Event.build_carrier CarrierType.plain] := by
  refine ⟨?_, ?_, ?_⟩ <;> rfl

/-- C10: every call of `regression_skeleton` builds exactly one carrier, the
one that the flags `(regression.isSV(), regressionData.getNumberOfRegions() > 0)`
select: (true, true) Forced+Areal, (true, false) Forced, (false, true) Areal,
(false, false) plain; the four flag combinations select four different
variants. -/
theorem regression_skeleton_builds_one_carrier {Sol Out Res : Type}
    (env : Collaborators Sol Out Res) (isSV : Bool) (nRegions : Nat)
    (opt : OptimizationData) :
    carriers_built (regression_skeleton env isSV nRegions opt).1 =
      [carrier_of_flags isSV (decide (nRegions > 0))] ∧
    Function.Injective (Function.uncurry carrier_of_flags) := by
  constructor
  · unfold regression_skeleton
    cases isSV <;> by_cases hr : nRegions > 0 <;>
      simp [hr, carrier_of_flags, carriers_built, carriers_built_append,
        carriers_built_method]
  · rintro ⟨a, b⟩ ⟨c, d⟩ h
    cases a <;> cases b <;> cases c <;> cases d <;>
      first | rfl | exact absurd h (by decide)


/-! ## The iterative branch of the strategy selection -/

/-- C11: when the criterion is not "batch", `optimizer_strategy_selection` calls
`compute` exactly once, with starting value the configured initial lambda when
that is positive and `-1` when it is not, with step tolerance `5·10⁻²` and
iteration bound `40`; the solution it returns is `carrier.apply` at the lambda
that `compute` returned, and that is the only call of `carrier.apply`. -/
theorem iterative_branch_compute_once {Sol Out Res : Type} (env : Collaborators Sol Out Res)
    (optim : EvaluationType) (carrier : Carrier)
    (h : carrier.opt_data.criterion ≠ "batch") :
    compute_calls (optimizer_strategy_selection env optim carrier).1 =
      [(if carrier.opt_data.initial_lambda_S > 0 then carrier.opt_data.initial_lambda_S
        else -1, 5 / 100, 40)] ∧
    apply_calls (optimizer_strategy_selection env optim carrier).1 =
      [(env.compute carrier.opt_data.criterion optim carrier.variant
        (if carrier.opt_data.initial_lambda_S > 0 then carrier.opt_data.initial_lambda_S
          else -1) (5 / 100) 40).1] ∧
    ∃ output, (optimizer_strategy_selection env optim carrier).2 =
      some (env.apply carrier.variant
        (env.compute carrier.opt_data.criterion optim carrier.variant
          (if carrier.opt_data.initial_lambda_S > 0 then carrier.opt_data.initial_lambda_S
            else -1) (5 / 100) 40).1, output) := by
  have htol : (5e-2 : ℚ) = 5 / 100 := by norm_num
  have hstart : (if carrier.opt_data.initial_lambda_S ≤ 0 then (-1 : ℚ)
      else carrier.opt_data.initial_lambda_S) =
      (if carrier.opt_data.initial_lambda_S > 0 then carrier.opt_data.initial_lambda_S
        else -1) := by
    by_cases hl : carrier.opt_data.initial_lambda_S ≤ 0
    · rw [if_pos hl, if_neg (not_lt.mpr hl)]
    · rw [if_neg hl, if_pos (not_le.mp hl)]
  unfold optimizer_strategy_selection
  simp only
  rw [if_neg h, hstart, htol]
  exact ⟨rfl, rfl, _, rfl⟩

/-- Witness for C11: criterion "newton" with initial lambda `-3`, replaced by `-1`. -/
theorem iterative_branch_compute_once_witness :
    ("newton" ≠ "batch") ∧
    compute_calls (optimizer_strategy_selection sample_collaborators EvaluationType.GCV_Exact
        ⟨CarrierType.plain, ⟨"GCV", "exact", "newton", -3, []⟩⟩).1 =
      [(if (-3 : ℚ) > 0 then -3 else -1, 5 / 100, 40)] :=
  ⟨by decide,
    (iterative_branch_compute_once sample_collaborators EvaluationType.GCV_Exact
      ⟨CarrierType.plain, ⟨"GCV", "exact", "newton", -3, []⟩⟩ (by decide)).1⟩

/-! ## Index safety of the weighted pointwise builder -/

/-- C12, evaluated at an input that meets its preconditions: three nodes, one
observation on node 2 (`k = [2]`, `s = 1`), `Q = [[5]]` of size `1 × 1`, `T` of
size `3 × 3`, boundary list `[2]`.  Without the boundary list the builder
returns a result; with it, the boundary step reads `Q(2, 2)`, which lies outside
`Q`, and the builder returns none. -/
theorem weighted_boundary_read_out_of_range :
    ([2].length = 1 ∧ (∀ x ∈ [2], x < 3) ∧ (∀ id ∈ [2], id < 3)) ∧
    (set_T_ln_W_ptw (0 : MatrixXr 3 3) [2] (!![5] : MatrixXr 1 1) 1 []).isSome = true ∧
    coeff (!![5] : MatrixXr 1 1) 2 2 = none ∧
    set_T_ln_W_ptw (0 : MatrixXr 3 3) [2] (!![5] : MatrixXr 1 1) 1 [2] = none := by
  refine ⟨⟨by decide, by decide, by decide⟩, ?_, rfl, rfl⟩
  rw [set_T_ln_W_ptw_eq (0 : MatrixXr 3 3) [2] (!![5] : MatrixXr 1 1) [] (by decide)
    (by decide) (by simp) (by simp)]
  rfl

/-! ## The diagonal shortcut agrees with the product builder on the boundary -/

/-- C13: for an injective `k` of exactly `s` entries below `n`, `Ψ` its `s × n`
indicator matrix, a boundary list of pairwise distinct indices below `n` and any
initial `T0`, `set_T_ln_nW_ptw(T0, k, s, bc)` and
`set_T_lnn_nW_ptw(T0, Ψ, Ψᵀ, bc)` return the same matrix. -/
theorem shortcut_agrees_with_product_builder (n s : Nat) (k bc : List Nat) (T0 : MatrixXr n n)
    (hlen : k.length = s) (hlt : ∀ x ∈ k, x < n) (hnd : k.Nodup)
    (hbc : ∀ id ∈ bc, id < n) (hbcnd : bc.Nodup) :
    ∃ M, set_T_ln_nW_ptw T0 k s bc = some M ∧
      set_T_lnn_nW_ptw T0 (indicator s n k) (indicator s n k)ᵀ bc = some M := by
  refine ⟨_, set_T_ln_nW_ptw_eq T0 k s bc hlen hlt hbc, ?_⟩
  rw [set_T_lnn_nW_ptw_eq T0 _ _ bc hbc, ← obs_nW_eq_mul n s k hlen, add_assoc]
  congr 2
  ext a b
  rw [Matrix.add_apply, obs_nW_apply n s k hlen, bc_sum_apply]
  by_cases hab : a = b
  · subst hab
    by_cases hmem : a.val ∈ bc
    · rw [with_boundary_mem _ bc a hmem, count_of_nodup_mem bc _ hbcnd hmem]
      by_cases hk : a.val ∈ k
      · rw [count_of_nodup_mem k _ hnd hk]
        simp [bc_inc_nW, hk]
      · rw [count_of_not_mem k _ hk]
        simp [bc_inc_nW, hk]
    · rw [with_boundary_other _ bc a a (fun h => hmem h.2), count_of_not_mem bc _ hmem,
        obs_nW_apply n s k hlen]
      simp
  · rw [with_boundary_other _ bc a b (fun h => hab h.1), obs_nW_apply n s k hlen]
    simp [hab]

/-- Witness for C13: observations on nodes 2 and 0 of a four-node mesh,
boundary list `[0, 3]`. -/
theorem shortcut_agrees_with_product_builder_witness :
    ([2, 0].length = 2 ∧ (∀ x ∈ [2, 0], x < 4) ∧ [2, 0].Nodup ∧ (∀ id ∈ [0, 3], id < 4) ∧
      [0, 3].Nodup) ∧
    ∃ M, set_T_ln_nW_ptw (1 : MatrixXr 4 4) [2, 0] 2 [0, 3] = some M ∧
      set_T_lnn_nW_ptw (1 : MatrixXr 4 4) (indicator 2 4 [2, 0]) (indicator 2 4 [2, 0])ᵀ
        [0, 3] = some M :=
  ⟨⟨by decide, by decide, by decide, by decide, by decide⟩,
    shortcut_agrees_with_product_builder 4 2 [2, 0] [0, 3] 1 (by decide) (by decide)
      (by decide) (by decide) (by decide)⟩


/-! ## Observations kept by `setObservations` -/

theorem take_set_succ (l : List RReal) (c : Nat) (x : RReal) (h : c < l.length) :
    (l.set c x).take (c + 1) = l.take c ++ [x] := by
  induction l generalizing c with
  | nil => simp at h
  | cons y ys ih =>
    cases c with
    | zero => simp
    | succ c =>
      have h2 : c < ys.length := by simpa using h
      simp [ih c h2]

theorem take_succ_of_getElem? (xs : List RReal) (m : Nat) (x : RReal) (h : xs[m]? = some x) :
    xs.take (m + 1) = xs.take m ++ [x] := by
  rw [List.take_succ, h]
  rfl

theorem non_missing_values_snoc (xs : List RReal) (x : RReal) :
    non_missing_values (xs ++ [x]) =
      non_missing_values xs ++ (if ISNA x then [] else [x]) := by
  unfold non_missing_values
  rw [List.filter_append]
  cases hx : ISNA x <;> simp [hx]

theorem non_missing_values_length_le (xs : List RReal) :
    (non_missing_values xs).length ≤ xs.length :=
  List.length_filter_le _ xs

/-- State of the first loop of `setObservations` after `m` iterations. -/
theorem setObservations_loop (uninit : RReal) (xs : List RReal) (idx0 : List Nat) (m : Nat)
    (hm : m ≤ xs.length) :
    ∃ st : ObservationLoop,
      (List.range m).foldlM (fun (st : ObservationLoop) i => do
        let x ← xs[i]?
        if !ISNA x then
          let observations_ ← assign_at st.observations_ st.count x
          pure { observations_ := observations_, count := st.count + 1,
                 observations_indices_ := st.observations_indices_ ++ [i] }
        else
          pure st) ⟨resize xs.length uninit, 0, idx0⟩ = some st ∧
      st.count = (non_missing_values (xs.take m)).length ∧
      st.observations_.length = xs.length ∧
      st.observations_.take st.count = non_missing_values (xs.take m) ∧
      st.observations_indices_ =
        idx0 ++ (List.range m).filter fun i => (xs[i]?).any fun x => !ISNA x := by
  induction m with
  | zero =>
    refine ⟨⟨resize xs.length uninit, 0, idx0⟩, rfl, ?_, ?_, ?_, ?_⟩
    · simp [non_missing_values]
    · simp [resize]
    · simp [non_missing_values]
    · simp
  | succ m ih =>
    obtain ⟨st, hst, hcount, hlen, htake, hidx⟩ := ih (Nat.le_of_succ_le hm)
    have hmlt : m < xs.length := hm
    have hx : xs[m]? = some xs[m] := List.getElem?_eq_getElem hmlt
    rw [List.range_succ, List.foldlM_append, hst]
    simp only [Option.some_bind, Option.bind_eq_bind, List.foldlM_cons, List.foldlM_nil, hx]
    rw [take_succ_of_getElem? xs m xs[m] hx, non_missing_values_snoc, List.filter_append]
    cases hna : ISNA xs[m]
    · have hc : st.count < st.observations_.length := by
        rw [hlen, hcount]
        have h1 := non_missing_values_length_le (xs.take m)
        rw [List.length_take] at h1
        omega
      refine ⟨⟨st.observations_.set st.count xs[m], st.count + 1,
        st.observations_indices_ ++ [m]⟩, ?_, ?_, ?_, ?_, ?_⟩
      · simp [assign_at, hc]
      · simp [hcount]
      · simp [hlen]
      · simp only [Bool.false_eq_true, if_false]
        rw [take_set_succ _ _ _ hc, htake]
      · simp [hidx, hx, hna]
    · refine ⟨st, ?_, ?_, hlen, ?_, ?_⟩
      · simp
      · simp [hcount]
      · simp [htake]
      · simp [hidx, hx, hna]

theorem non_missing_positions_snoc (xs : List RReal) (x : RReal) :
    non_missing_positions (xs ++ [x]) =
      non_missing_positions xs ++ (if ISNA x then [] else [xs.length]) := by
  unfold non_missing_positions
  rw [List.length_append, List.length_singleton, List.range_succ, List.filter_append]
  congr 1
  · apply List.filter_congr
    intro i hi
    rw [List.getElem?_append_left (List.mem_range.mp hi)]
  · cases hx : ISNA x <;> simp [hx]

/-- The values found at the non-missing positions are the non-missing values. -/
theorem non_missing_positions_values (xs : List RReal) :
    (non_missing_positions xs).map (fun i => xs[i]?) = (non_missing_values xs).map some := by
  induction xs using List.reverseRecOn with
  | nil => rfl
  | append_singleton xs x ih =>
    rw [non_missing_positions_snoc, non_missing_values_snoc, List.map_append, List.map_append]
    congr 1
    · rw [← ih]
      apply List.map_congr_left
      intro i hi
      have hlt : i < xs.length := by
        have h2 := List.mem_filter.mp hi
        exact List.mem_range.mp h2.1
      rw [List.getElem?_append_left hlt]
    · cases hx : ISNA x <;> simp

theorem non_missing_positions_increasing (xs : List RReal) :
    (non_missing_positions xs).Pairwise (fun i j => i < j) :=
  List.Pairwise.filter _ (List.pairwise_lt_range xs.length)

theorem non_missing_positions_of_no_NA (xs : List RReal) (h : ∀ x ∈ xs, ISNA x = false) :
    non_missing_positions xs = List.range xs.length := by
  unfold non_missing_positions
  apply List.filter_eq_self.mpr
  intro i hi
  have hlt : i < xs.length := List.mem_range.mp hi
  rw [List.getElem?_eq_getElem hlt]
  simp [h xs[i] (List.getElem_mem hlt)]

/-- C14: on an object with no locations, no regions and an empty
`observations_indices_` (freshly constructed), `setObservations` returns with
`observations_` the non-`NA` entries of the input in input order,
`observations_indices_` the strictly increasing list of the positions of those
entries (the entry of `observations_` at rank `j` is the input entry at the
`j`-th listed position), both of the same length, and `locations_by_nodes_`
true; for an input without `NA` the indices are `0, 1, ..., n-1`, the list the
non-R constructor produces with `std::iota`. -/
theorem setObservations_keeps_non_missing {Point : Type} (uninit : RReal)
    (d : RegressionData Point) (xs : List RReal) (hloc : d.locations_ = [])
    (hreg : d.nRegions_ = 0) (hfresh : d.observations_indices_ = []) :
    ∃ d2, RegressionData.setObservations uninit d xs = some d2 ∧
      d2.observations_ = non_missing_values xs ∧
      d2.observations_indices_ = non_missing_positions xs ∧
      d2.observations_indices_.Pairwise (fun i j => i < j) ∧
      d2.observations_indices_.map (fun i => xs[i]?) = d2.observations_.map some ∧
      d2.observations_.length = d2.observations_indices_.length ∧
      d2.locations_by_nodes_ = true ∧
      ((∀ x ∈ xs, ISNA x = false) →
        d2.observations_indices_ = List.range xs.length ∧
        d2.observations_indices_ =
          (RegressionData.constructor d.locations_ xs 0).observations_indices_) := by
  obtain ⟨st, hst, hcount, hlen, htake, hidx⟩ :=
    setObservations_loop uninit xs d.observations_indices_ xs.length (le_refl _)
  rw [List.take_length] at hcount htake
  have hcond : d.locations_.length = 0 ∧ d.nRegions_ = 0 := by
    rw [hloc, hreg]
    exact ⟨rfl, rfl⟩
  have hobs : conservativeResize st.observations_ st.count uninit = non_missing_values xs := by
    unfold conservativeResize
    have hle : st.count - st.observations_.length = 0 := by
      rw [hlen, hcount]
      exact Nat.sub_eq_zero_of_le (non_missing_values_length_le xs)
    rw [hle, htake]
    simp
  have hpos : st.observations_indices_ = non_missing_positions xs := by
    rw [hidx, hfresh]
    rfl
  have hmap := non_missing_positions_values xs
  refine ⟨{ d with
      locations_by_nodes_ := true
      observations_ := conservativeResize st.observations_ st.count uninit
      observations_indices_ := st.observations_indices_ }, ?_, hobs, hpos, ?_, ?_, ?_, rfl, ?_⟩
  · unfold RegressionData.setObservations
    simp only
    rw [if_pos hcond, hst]
    rfl
  · simp only [hpos]
    exact non_missing_positions_increasing xs
  · simp only [hpos, hobs]
    exact hmap
  · simp only [hpos, hobs]
    have h2 := congrArg List.length hmap
    simpa using h2.symm
  · intro hna
    simp only [hpos]
    refine ⟨non_missing_positions_of_no_NA xs hna, ?_⟩
    rw [non_missing_positions_of_no_NA xs hna]
    unfold RegressionData.constructor
    simp [hloc]

/-- Witness for C14: the input `[1, NA, 3]` on a fresh object without locations
or regions. -/
theorem setObservations_keeps_non_missing_witness :
    ((⟨[], [], [], 0, false⟩ : RegressionData Unit).locations_ = [] ∧
      (⟨[], [], [], 0, false⟩ : RegressionData Unit).nRegions_ = 0 ∧
      (⟨[], [], [], 0, false⟩ : RegressionData Unit).observations_indices_ = []) ∧
    ∃ d2, RegressionData.setObservations (some 7) (⟨[], [], [], 0, false⟩ : RegressionData Unit)
        [some 1, none, some 3] = some d2 ∧
      d2.observations_ = non_missing_values [some 1, none, some 3] ∧
      d2.observations_indices_ = non_missing_positions [some 1, none, some 3] ∧
      d2.observations_indices_.Pairwise (fun i j => i < j) ∧
      d2.observations_indices_.map (fun i => [some 1, none, some 3][i]?) =
        d2.observations_.map some ∧
      d2.observations_.length = d2.observations_indices_.length ∧
      d2.locations_by_nodes_ = true ∧
      ((∀ x ∈ [some 1, none, some 3], ISNA x = false) →
        d2.observations_indices_ = List.range [some (1 : ℚ), none, some 3].length ∧
        d2.observations_indices_ =
          (RegressionData.constructor (⟨[], [], [], 0, false⟩ : RegressionData Unit).locations_
            [some 1, none, some 3] 0).observations_indices_) :=
  ⟨⟨rfl, rfl, rfl⟩,
    setObservations_keeps_non_missing (some 7) (⟨[], [], [], 0, false⟩ : RegressionData Unit)
      [some 1, none, some 3] rfl rfl rfl⟩

end FdaPDE
